import Mathlib

/-!
Verification of the ORION ViralProteome loaders (`loadUniRef.py`, `loadVP.py`)
against their natural-language specification.

The development shallowly embeds the parts of the two loaders that the claims
concern:

* `get_entry_element` / `parse_data_file` — the offset-indexed record locator
  over a byte store (modelled as a `List Char`, with Python file `seek`/`read`
  /`readline` made explicit);
* `capture_entry_data` — the record decomposer over an explicit XML element
  tree (the result of `xml.etree.ElementTree.fromstring`, which itself is an
  external library and is taken as a parameter where its success/failure
  matters);
* `normalize_node_data` (both the loadVP and the loadUniRef variants) — the
  batch normalizer, with the external normalization web service modelled as a
  function from a requested chunk to an optional per-identifier response
  (outer `Option` = HTTP success/failure, inner per-key `Option` = the JSON
  `null` the service returns for identifiers it cannot normalize);
* `get_edge_set` (loadVP) and `write_edge_data` (loadUniRef) — the edge
  synthesizers.

Python exceptions are modelled with explicit error results (`Except` /
dedicated result types); the infinite `while True:` read loop of
`get_entry_element` is modelled both structurally (with an explicit
`diverge` marker for the end-of-file spin) and with an explicit fuel
counter, and the two are related by theorems.
-/

/-- A node row, the central mutable unit: one Python dict of the node list.
`similarity_bin` is present on rows produced by the UniRef loader and unused
by the VP loader. -/
structure NodeRow where
  grp : String
  node_num : Nat
  id : String
  name : String
  category : String
  equivalent_identifiers : String
  similarity_bin : String := ""
  deriving DecidableEq, Repr

/-! ## Byte-store primitives

The UniRef data file is opened in binary mode; we model its contents as a
`List Char` (the files are ASCII).  `readAt` is `fp.seek(pos); fp.read(n)`:
reading past end-of-file returns the bytes that exist (possibly none). -/

/-- `fp.seek(pos); fp.read(n)` for a non-negative position. -/
def readAt (store : List Char) (pos n : Nat) : String :=
  ((store.drop pos).take n).asString

/-- One `fp.readline()`: the characters up to and including the next
newline (or to end-of-file), together with the rest of the store. -/
def takeLine : List Char → List Char × List Char
  | [] => ([], [])
  | c :: cs =>
    if c = '\n' then ([c], cs)
    else
      let r := takeLine cs
      (c :: r.1, r.2)

theorem takeLine_rest_length (cs : List Char) : (takeLine cs).2.length ≤ cs.length := by
  induction cs with
  | nil => simp [takeLine]
  | cons c cs ih =>
    by_cases h : c = '\n' <;> simp [takeLine, h] <;> omega

theorem takeLine_rest_lt (c : Char) (cs : List Char) :
    (takeLine (c :: cs)).2.length < (c :: cs).length := by
  have := takeLine_rest_length cs
  by_cases h : c = '\n' <;> simp [takeLine, h] <;> omega

/-- Worker for `splitLines`, structurally recursive on a fuel bound that the
wrapper instantiates with the store length (each `readline` consumes at
least one character, so the fuel never runs out). -/
def splitLinesAux : Nat → List Char → List String
  | _, [] => []
  | 0, _ :: _ => []
  | fuel + 1, c :: rest =>
    (takeLine (c :: rest)).1.asString :: splitLinesAux fuel (takeLine (c :: rest)).2

/-- Split the remainder of the store into the successive `readline` results.
At end-of-file `readline` returns the empty string forever; that tail of
empty reads is represented by the end of the list. -/
def splitLines (cs : List Char) : List String := splitLinesAux cs.length cs

theorem splitLinesAux_stable (fuel : Nat) : ∀ (cs : List Char), cs.length ≤ fuel →
    splitLinesAux fuel cs = splitLinesAux cs.length cs := by
  induction fuel using Nat.strong_induction_on with
  | _ fuel ih =>
    intro cs h
    match fuel, cs with
    | 0, [] => rfl
    | f + 1, [] => rfl
    | 0, c :: rest => simp at h
    | f + 1, c :: rest =>
      have h2 : (takeLine (c :: rest)).2.length ≤ rest.length := by
        have := takeLine_rest_lt c rest
        simp only [List.length_cons] at this
        omega
      have hf : rest.length ≤ f := by simp only [List.length_cons] at h; omega
      simp only [List.length_cons, splitLinesAux]
      rw [ih f (by omega) _ (le_trans h2 hf), ih rest.length (by omega) _ h2]

theorem splitLines_cons (c : Char) (rest : List Char) :
    splitLines (c :: rest) =
      (takeLine (c :: rest)).1.asString :: splitLines (takeLine (c :: rest)).2 := by
  show splitLinesAux (rest.length + 1) (c :: rest) = _
  simp only [splitLinesAux]
  rw [splitLinesAux_stable rest.length _
    (by have := takeLine_rest_lt c rest; simp only [List.length_cons] at this; omega)]
  rfl

/-! ## The record locator: `get_entry_element` (loadUniRef.py lines 253–300)

The backward scan seeks to `taxon_index`, reads six bytes, compares with
`"<entry"`, and on a miss decrements the index, at most 500 times.  A seek
to a negative position raises `OSError` in Python; the forward accumulation
loop (`while True: readline()`) never exits once end-of-file is reached,
because `readline` then returns the empty string, which neither starts the
sequence payload nor the closing tag. -/

/-- Result of running a Python function that may raise or never return. -/
inductive PyResult (α : Type) where
  /-- The function returned this value. -/
  | ok (a : α)
  /-- The function raised `OSError` from a seek to a negative offset. -/
  | seekErr
  /-- The function never returns (infinite loop). -/
  | diverge
  deriving DecidableEq, Repr

/-- Decidable equality for `Except` results, for concrete evaluation. -/
instance exceptDecEq {e a : Type} [DecidableEq e] [DecidableEq a] :
    DecidableEq (Except e a) := fun x y =>
  match x, y with
  | .error u, .error v =>
    if h : u = v then isTrue (h ▸ rfl) else isFalse (fun hh => h (Except.error.inj hh))
  | .ok u, .ok v =>
    if h : u = v then isTrue (h ▸ rfl) else isFalse (fun hh => h (Except.ok.inj hh))
  | .error _, .ok _ => isFalse (fun hh => Except.noConfusion hh)
  | .ok _, .error _ => isFalse (fun hh => Except.noConfusion hh)

/-- The backward scan of `get_entry_element`: up to `fuel` probe positions
starting at `pos` and walking down one character at a time.  Returns the
first (highest) probed position whose six bytes read `"<entry"`, `none` if
all probes miss, and an error as soon as a probe position is negative. -/
def backScanAux (store : List Char) : Nat → Int → Except Unit (Option Nat)
  | 0, _ => .ok none
  | fuel + 1, pos =>
    if pos < 0 then .error ()
    else if readAt store pos.toNat 6 = "<entry" then .ok (some pos.toNat)
    else backScanAux store fuel (pos - 1)

/-- Python's `str.startswith(pre)`: prefix test on the character sequence. -/
def pyStartswith (s pre : String) : Bool := pre.toList.isPrefixOf s.toList

/-- The forward accumulation loop of `get_entry_element`, structurally: the
argument is the list of successive `readline` results.  Lines opening the
sequence payload (`"  <seq"`) are elided; every other line is appended; the
loop stops, inclusively, at the first line starting the closing tag
(`"</entr"`).  `none` means the store was exhausted first: the Python loop
then spins forever on empty reads (see `accumLoopFuel_eof`). -/
def accumLoop : List String → String → Option String
  | [], _ => none
  | l :: ls, acc =>
    if pyStartswith l "  <seq" then accumLoop ls acc
    else if pyStartswith l "</entr" then some (acc ++ l)
    else accumLoop ls (acc ++ l)

/-- The same loop with an explicit fuel counter, mirroring `while True:`
one iteration per fuel unit; at end-of-file `readline` yields `""`, which is
appended (a no-op) and does not match the closing tag, so the state repeats. -/
def accumLoopFuel : Nat → List String → String → Option String
  | 0, _, _ => none
  | fuel + 1, [], acc => accumLoopFuel fuel [] acc
  | fuel + 1, l :: ls, acc =>
    if pyStartswith l "  <seq" then accumLoopFuel fuel ls acc
    else if pyStartswith l "</entr" then some (acc ++ l)
    else accumLoopFuel fuel ls (acc ++ l)

/-- `get_entry_element(taxon_index, uniref_fp)` (loadUniRef.py 253–300):
scan backward at most 500 positions for `"<entry"`; on a miss return the
empty string; on a hit seek back to the match and accumulate lines through
the first closing-tag line. -/
def get_entry_element (store : List Char) (taxon_index : Int) : PyResult String :=
  match backScanAux store 500 taxon_index with
  | .error () => .seekErr
  | .ok none => .ok ""
  | .ok (some p) =>
    match accumLoop (splitLines (store.drop p)) "" with
    | none => .diverge
    | some s => .ok s

/-- The call site in `parse_data_file` (loadUniRef.py line 105–108): the
index offset is first biased back by 150. -/
def locate_record (store : List Char) (index_offset : Int) : PyResult String :=
  get_entry_element store (index_offset - 150)

/-! ## The record decomposer: `capture_entry_data` (loadUniRef.py 302–418)

The entry text is parsed by the external `xml.etree.ElementTree.fromstring`;
we embed the decomposer over the resulting element tree.  A Python
`element.attrib[k]` on a missing key raises `KeyError`; inside the decomposer
some of those are caught (`except KeyError: pass`) and some are not — the
uncaught ones surface as `.error`. -/

/-- An XML element as produced by `ElementTree.fromstring`: tag, attribute
dictionary, child elements. -/
structure XElem where
  tag : String
  attrib : List (String × String)
  children : List XElem

/-- `element.attrib[k]`, as an option (`none` = Python `KeyError`). -/
def XElem.attr (e : XElem) (k : String) : Option String :=
  (e.attrib.find? (fun p => p.1 == k)).map (·.2)

/-- The cross-reference properties collected into `member_props`
(loadUniRef.py 370–386).  The `'id'` entry of the Python dict is written but
never read, so it is not tracked. -/
structure MemberProps where
  uniprotkb : Option String := none
  source_organism : Option String := none
  ncbi_taxonomy : Option String := none
  protein_name : Option String := none
  deriving DecidableEq, Repr

/-- Record one matched property value under its type key. -/
def MemberProps.set (p : MemberProps) (ty v : String) : MemberProps :=
  if ty = "source organism" then { p with source_organism := some v }
  else if ty = "NCBI taxonomy" then { p with ncbi_taxonomy := some v }
  else if ty = "protein name" then { p with protein_name := some v }
  else p

/-- The property loop over a `dbReference` element's children
(loadUniRef.py 376–386).  The boolean is `found_uniprot_access`: only the
first `UniProtKB accession` property is recorded.  `attrib['type']` and
`attrib['value']` on a `property` element are read outside any `try`, so a
missing key is an uncaught `KeyError`. -/
def extractProps : List XElem → MemberProps → Bool → Except Unit MemberProps
  | [], props, _ => .ok props
  | p :: rest, props, foundU =>
    if p.tag = "property" then
      match p.attr "type" with
      | none => .error ()
      | some ty =>
        if ty = "UniProtKB accession" ∨ ty = "source organism" ∨
            ty = "NCBI taxonomy" ∨ ty = "protein name" then
          if ty = "UniProtKB accession" then
            if foundU then extractProps rest props foundU
            else
              match p.attr "value" with
              | none => .error ()
              | some v => extractProps rest { props with uniprotkb := some v } true
          else
            match p.attr "value" with
            | none => .error ()
            | some v => extractProps rest (props.set ty v) foundU
        else extractProps rest props foundU
    else extractProps rest props foundU

/-- Category tag string of a member gene node (loadUniRef.py 399). -/
def geneCategory : String :=
  "gene|gene_or_gene_product|macromolecular_machine|genomic_entity|molecular_entity|biological_entity|named_thing"

/-- The qualification test and node-pair emission for one extracted member
(loadUniRef.py 388–409).  The whole block sits in a `try/except KeyError:
pass`, so a missing required property silently skips the member.  Both rows
of a member pair share the current `node_counter`, which then advances by
one. -/
def memberRows (grp simBin : String) (taxa : List String) (node_counter : Nat)
    (props : MemberProps) : List NodeRow × Nat :=
  match props.ncbi_taxonomy with
  | none => ([], node_counter)
  | some tax =>
    if taxa.contains tax then
      match props.uniprotkb, props.source_organism, props.protein_name with
      | some up, some so, some pn =>
        ([{ grp := grp, node_num := node_counter, id := "UniProtKB:" ++ up, name := pn,
            category := geneCategory, equivalent_identifiers := "UniProtKB:" ++ up,
            similarity_bin := simBin },
          { grp := grp, node_num := node_counter, id := "NCBITaxon:" ++ tax, name := so,
            category := "organism_taxon|named_thing|ontology_class",
            equivalent_identifiers := "NCBITaxon:" ++ tax, similarity_bin := simBin }],
         node_counter + 1)
      | _, _, _ => ([], node_counter)
    else ([], node_counter)

/-- The loop over a member element's children looking for `dbReference`
elements (loadUniRef.py 363–409).  `member.attrib['id']` is read outside any
`try`: a `dbReference` without an `id` attribute is an uncaught `KeyError`. -/
def processMembers (grp simBin : String) (taxa : List String) :
    List XElem → List NodeRow → Nat → Except Unit (List NodeRow × Nat)
  | [], tmp, counter => .ok (tmp, counter)
  | m :: rest, tmp, counter =>
    if m.tag = "dbReference" then
      match m.attr "id" with
      | none => .error ()
      | some _ =>
        match extractProps m.children {} false with
        | .error e => .error e
        | .ok props =>
          let r := memberRows grp simBin taxa counter props
          processMembers grp simBin taxa rest (tmp ++ r.1) r.2
    else processMembers grp simBin taxa rest tmp counter

/-- Processing of one child of the entry element (loadUniRef.py 331–409):
first the `try`-guarded common-taxon block (the `KeyError` from a missing
`type` or `value` attribute is caught; note that `virus_capture` and the
first entry row are already set when the `value` lookup runs), then the
member block, which runs only once `virus_capture` is set.  State is
(rows collected, node counter, virus_capture flag). -/
def processChild (grp simBin entry_name : String) (taxa : List String)
    (st : List NodeRow × Nat × Bool) (child : XElem) :
    Except Unit (List NodeRow × Nat × Bool) :=
  let tmp := st.1
  let counter := st.2.1
  let vc := st.2.2
  let st' : List NodeRow × Nat × Bool :=
    match child.attr "type" with
    | none => (tmp, counter, vc)
    | some ty =>
      if ty = "common taxon ID" then
        let entryRow : NodeRow :=
          { grp := grp, node_num := counter, id := entry_name, name := entry_name,
            category := "gene_family|named_thing|biological_entity|molecular_entity",
            equivalent_identifiers := entry_name, similarity_bin := simBin }
        match child.attr "value" with
        | none => (tmp ++ [entryRow], counter, true)
        | some v =>
          (tmp ++ [entryRow,
            { grp := grp, node_num := counter + 1, id := "NCBITaxon:" ++ v,
              name := "NCBITaxon:" ++ v, category := "",
              equivalent_identifiers := "NCBITaxon:" ++ v, similarity_bin := simBin }],
           counter + 2, true)
      else (tmp, counter, vc)
  if st'.2.2 ∧ (child.tag = "member" ∨ child.tag = "representativeMember") then
    match processMembers grp simBin taxa child.children st'.1 st'.2.1 with
    | .error e => .error e
    | .ok (tmp', counter') => .ok (tmp', counter', st'.2.2)
  else .ok st'

/-- Python's `s.replace('_', ':')` at this call site: the pattern is a
single character, so the replacement is a character-by-character map. -/
def replaceUnderscoreColon (s : String) : String :=
  (s.toList.map (fun c => if c = '_' then ':' else c)).asString

/-- Python's `s.split(':')` on the character sequence: split at every
separator occurrence (an empty string yields one empty field). -/
def splitOnChar (sep : Char) : List Char → List (List Char)
  | [] => [[]]
  | c :: rest =>
    let r := splitOnChar sep rest
    if c = sep then [] :: r
    else (c :: r.headD []) :: r.tail

/-- `entry_name.split(':')` (loadUniRef.py 318–319). -/
def pySplitColon (s : String) : List String :=
  (splitOnChar ':' s.toList).map List.asString

/-- The rows a single record would contribute, before the size gate
(loadUniRef.py 313–409): entry id and group/similarity-bin names are
derived from the root `id` attribute (uncaught `KeyError` if missing;
uncaught `IndexError` if the rewritten name has no `:`), then every child
of the entry element is processed in order. -/
def capture_tmp (root : XElem) (taxa : List String) : Except Unit (List NodeRow) :=
  match root.attr "id" with
  | none => .error ()
  | some rid =>
    let entry_name := replaceUnderscoreColon rid
    let parts := pySplitColon entry_name
    match parts[1]? with
    | none => .error ()
    | some grp =>
      let simBin := parts.headD ""
      match root.children.foldlM (processChild grp simBin entry_name taxa) ([], 0, false) with
      | .error e => .error e
      | .ok st => .ok st.1

/-- `capture_entry_data` (loadUniRef.py 302–418): decompose one parsed entry
and extend the running node list with its rows only if at least 3 node pairs
(6 rows) were produced. -/
def capture_entry_data (root : XElem) (node_list : List NodeRow) (taxa : List String) :
    Except Unit (List NodeRow) :=
  match capture_tmp root taxa with
  | .error e => .error e
  | .ok tmp => .ok (if 6 ≤ tmp.length then node_list ++ tmp else node_list)

/-! ## The node batch normalizer: `normalize_node_data`
(loadVP.py 325–444 and loadUniRef.py 135–251)

The normalization cache maps a raw identifier to `none` (never looked up),
`some none` (looked up, explicit absent marker — Python `None`), or
`some (some r)` (a normalization result).  The external service call is a
function from the requested chunk of identifiers to `none` (non-200
response) or a per-identifier answer covering exactly the requested
identifiers — the service contract returns one (possibly `null`) entry per
requested identifier, and the JSON merge `{**cache, **rvs}` therefore
overwrites exactly the chunk's keys. -/

/-- The `id` sub-object of one normalization result: a canonical
`identifier` (always present per the service contract) and an optional
`label`. -/
structure NormIdObj where
  identifier : String
  label : Option String := none
  deriving DecidableEq, Repr

/-- One normalization result as consumed by the rewrite phase: the `id`
object, the optional `type` list and the optional `equivalent_identifiers`
list (represented by the `identifier` field of each of its items, the only
field the code reads). -/
structure NormResult where
  id : NormIdObj
  type : Option (List String) := none
  equivalent_identifiers : Option (List String) := none
  deriving DecidableEq, Repr

/-- The normalization cache.  `none` = key never looked up; `some none` =
explicit absent marker (Python `None`); `some (some r)` = result. -/
def Cache : Type := String → Option (Option NormResult)

/-- The external normalization service: `none` = non-200 HTTP status for
that chunk; otherwise one (possibly `null`) answer per requested
identifier. -/
def NormService : Type := List String → Option (String → Option NormResult)

/-- Process one chunk (loadVP.py 386–404, loadUniRef.py 194–212): on a 200
response merge the per-key answers over the cache (`{**cache, **rvs}`); on
any other status mark every identifier of the chunk with the absent
marker. -/
def processOneChunk (service : NormService) (cache : Cache) (chunk : List String) : Cache :=
  match service chunk with
  | some resp => fun k => if chunk.contains k then some (resp k) else cache k
  | none => fun k => if chunk.contains k then some none else cache k

/-- Worker for `chunksOf`, structurally recursive on a fuel bound that the
wrapper instantiates with the list length. -/
def chunksOfAux (sizePred : Nat) : Nat → List String → List (List String)
  | _, [] => []
  | 0, _ :: _ => []
  | fuel + 1, x :: xs =>
    ((x :: xs).take (sizePred + 1)) :: chunksOfAux sizePred fuel ((x :: xs).drop (sizePred + 1))

/-- Successive slices of `chunk_size = sizePred + 1` identifiers, as cut by
the `while` loop over `start_index` (loadVP.py 371–409). -/
def chunksOf (sizePred : Nat) (l : List String) : List (List String) :=
  chunksOfAux sizePred l.length l

theorem chunksOfAux_stable (sizePred fuel : Nat) : ∀ (l : List String),
    l.length ≤ fuel → chunksOfAux sizePred fuel l = chunksOfAux sizePred l.length l := by
  induction fuel using Nat.strong_induction_on with
  | _ fuel ih =>
    intro l h
    match fuel, l with
    | 0, [] => rfl
    | f + 1, [] => rfl
    | 0, x :: xs => simp at h
    | f + 1, x :: xs =>
      have h2 : ((x :: xs).drop (sizePred + 1)).length ≤ xs.length := by
        simp only [List.drop_succ_cons, List.length_drop]; omega
      have hf : xs.length ≤ f := by simp only [List.length_cons] at h; omega
      simp only [List.length_cons, chunksOfAux]
      rw [ih f (by omega) _ (le_trans h2 hf), ih xs.length (by omega) _ h2]

theorem chunksOf_cons (sizePred : Nat) (x : String) (xs : List String) :
    chunksOf sizePred (x :: xs) =
      ((x :: xs).take (sizePred + 1)) :: chunksOf sizePred ((x :: xs).drop (sizePred + 1)) := by
  show chunksOfAux sizePred (xs.length + 1) (x :: xs) = _
  simp only [chunksOfAux, List.drop_succ_cons]
  rw [chunksOfAux_stable sizePred xs.length _ (by simp only [List.length_drop]; omega)]
  rfl

/-- The whole chunked lookup phase: fold the chunk processing over the
candidate slices in order. -/
def processChunks (service : NormService) (sizePred : Nat) (cache : Cache)
    (to_normalize : List String) : Cache :=
  (chunksOf sizePred to_normalize).foldl (processOneChunk service) cache

/-- The candidate selection of the VP loader (loadVP.py 348–354): rows at
motif positions 2 or 3 whose id is not yet cached, deduplicated (the Python
code collects them into a set). -/
def selectCandidates_vp (node_list : List NodeRow) (cache : Cache) : List String :=
  (((node_list.filter (fun r => r.node_num == 2 || r.node_num == 3)).map (·.id)).filter
    (fun x => (cache x).isNone)).dedup

/-- The candidate selection of the UniRef loader (loadUniRef.py 154–165):
rows whose id starts with `'N'` and is not yet cached, deduplicated. -/
def selectCandidates_uniref (node_list : List NodeRow) (cache : Cache) : List String :=
  (((node_list.filter (fun r => pyStartswith r.id "N")).map (·.id)).filter
    (fun x => (cache x).isNone)).dedup

/-- `node_list[node_idx]['name'] = cache[rv['id']]['id']['label']` guarded by
`'label' in cache[rv['id']]['id']` (loadVP.py 425–426).  Each rewrite step
re-reads the cache at the row's *current* id, exactly as the Python
statements do; `.error` is the uncaught `KeyError`/`TypeError` were the key
missing or the value `None` at that point. -/
def setName (cache : Cache) (row : NodeRow) : Except Unit NodeRow :=
  match cache row.id with
  | none => .error ()
  | some none => .error ()
  | some (some r) =>
    .ok (match r.id.label with
         | some l => { row with name := l }
         | none => row)

/-- `category` from the pipe-joined `type` list, when present
(loadVP.py 428–429). -/
def setCategory (cache : Cache) (row : NodeRow) : Except Unit NodeRow :=
  match cache row.id with
  | none => .error ()
  | some none => .error ()
  | some (some r) =>
    .ok (match r.type with
         | some ts => { row with category := String.intercalate "|" ts }
         | none => row)

/-- `equivalent_identifiers` from the pipe-joined list, when present and
non-empty (loadVP.py 431–433). -/
def setEquiv (cache : Cache) (row : NodeRow) : Except Unit NodeRow :=
  match cache row.id with
  | none => .error ()
  | some none => .error ()
  | some (some r) =>
    .ok (match r.equivalent_identifiers with
         | some es =>
           if 0 < es.length then { row with equivalent_identifiers := String.intercalate "|" es }
           else row
         | none => row)

/-- The final statement `node_list[node_idx]['id'] =
cache[rv['id']]['id']['identifier']` (loadVP.py 436): the right-hand side is
evaluated at the row's current id before the assignment lands. -/
def setId (cache : Cache) (row : NodeRow) : Except Unit NodeRow :=
  match cache row.id with
  | none => .error ()
  | some none => .error ()
  | some (some r) => .ok { row with id := r.id.identifier }

/-- The rewrite phase for one row (loadVP.py 416–441, loadUniRef.py 224–248):
eligible rows whose cached value is the absent marker are left untouched;
otherwise the four field writes run in source order, `id` last. -/
def rewriteRow (elig : NodeRow → Bool) (cache : Cache) (row : NodeRow) : Except Unit NodeRow :=
  if elig row then
    match cache row.id with
    | none => .error ()
    | some none => .ok row
    | some (some _) => do
      let r1 ← setName cache row
      let r2 ← setCategory cache r1
      let r3 ← setEquiv cache r2
      setId cache r3
  else .ok row

/-- Row eligibility of the VP normalizer: `node_num in [2, 3]`. -/
def eligVP (row : NodeRow) : Bool := row.node_num == 2 || row.node_num == 3

/-- Row eligibility of the UniRef normalizer: `id.startswith('N')`. -/
def eligN (row : NodeRow) : Bool := pyStartswith row.id "N"

/-- The empty normalization cache. -/
def emptyCache : Cache := fun _ => none

/-- The rewrite loop over the whole node list (`while node_idx < node_count`,
loadVP.py 416–441): each row is rewritten independently against the fixed
post-lookup cache. -/
def rewriteRows (elig : NodeRow → Bool) (cache : Cache) :
    List NodeRow → Except Unit (List NodeRow)
  | [] => .ok []
  | row :: rest =>
    match rewriteRow elig cache row with
    | .error e => .error e
    | .ok row' =>
      match rewriteRows elig cache rest with
      | .error e => .error e
      | .ok rest' => .ok (row' :: rest')

/-- `VPLoader.normalize_node_data` (loadVP.py 325–444): a fresh per-call
cache, candidate selection, chunked lookups of size 10, then the in-place
rewrite of every eligible row. -/
def normalize_node_data_vp (service : NormService) (node_list : List NodeRow) :
    Except Unit (List NodeRow) :=
  let cache := processChunks service 9 emptyCache (selectCandidates_vp node_list emptyCache)
  rewriteRows eligVP cache node_list

/-- `UniRefSimLoader.normalize_node_data` (loadUniRef.py 135–251): the cache
is the instance attribute `cached_node_norms`, passed in and returned;
chunk size 1000. -/
def normalize_node_data_uniref (service : NormService) (cache0 : Cache)
    (node_list : List NodeRow) : Except Unit (List NodeRow × Cache) :=
  let cache := processChunks service 999 cache0 (selectCandidates_uniref node_list cache0)
  match rewriteRows eligN cache node_list with
  | .error e => .error e
  | .ok rows => .ok (rows, cache)

/-! ## The edge synthesizers -/

/-- One synthesized edge before rendering: subject, relation, edge label,
object.  The written line is a deterministic rendering of these fields
(tab-separated, prefixed by the md5 of the rendering in the UniRef loader's
case), so which edges a group produces is fully captured by these values. -/
structure Edge where
  subject : String
  relation : String
  edge_label : String
  object : String
  deriving DecidableEq, Repr

/-- The string a VP edge contributes to `edge_set` (loadVP.py 227/261),
including the trailing source-database column. -/
def Edge.render_vp (e : Edge) : String :=
  "\t" ++ e.subject ++ "\t" ++ e.relation ++ "\t" ++ e.edge_label ++ "\t" ++ e.object ++
    "\tUniProtKB GOA Viral proteomes\n"

/-- The string written for a UniRef edge (loadUniRef.py 507–526), before the
md5 prefix. -/
def Edge.render_uniref (e : Edge) : String :=
  "\t" ++ e.subject ++ "\t" ++ e.relation ++ "\t" ++ e.edge_label ++ "\t" ++ e.object ++ "\n"

/-- The per-group id collection of `get_edge_set` (loadVP.py 203–223): the
last row at each motif position wins; positions never seen leave the empty
string. -/
structure TripletIds where
  node_1_id : String := ""
  node_2_id : String := ""
  node_3_id : String := ""
  node_3_type : String := ""
  deriving DecidableEq, Repr

/-- Walk the rows of one triplet group recording ids by `node_num`
(loadVP.py 215–223). -/
def tripletIds (rows : List NodeRow) : TripletIds :=
  rows.foldl (fun acc row =>
    if row.node_num = 1 then { acc with node_1_id := row.id }
    else if row.node_num = 2 then { acc with node_2_id := row.id }
    else if row.node_num = 3 then { acc with node_3_id := row.id, node_3_type := row.category }
    else acc) {}

/-- `haystack.find(needle) > -1`: substring containment. -/
def hasSubstr (needle : List Char) : List Char → Bool
  | [] => needle.isEmpty
  | c :: rest => needle.isPrefixOf (c :: rest) || hasSubstr needle rest

/-- Python `s.find(sub) > -1`. -/
def strFindGt (s sub : String) : Bool := hasSubstr sub.toList s.toList

/-- The edges `get_edge_set` adds for one triplet group (loadVP.py 203–261):
the `in_taxon` edge always, then at most one category-directed edge chosen
by the first matching substring of the term node's category. -/
def get_edge_set_group (rows : List NodeRow) : List Edge :=
  let t := tripletIds rows
  let first : Edge :=
    { subject := t.node_1_id, relation := "in_taxon", edge_label := "in_taxon",
      object := t.node_2_id }
  if strFindGt t.node_3_type "molecular_activity" then
    [first, { subject := t.node_3_id, relation := "enabled_by", edge_label := "enabled_by",
              object := t.node_1_id }]
  else if strFindGt t.node_3_type "biological_process" then
    [first, { subject := t.node_1_id, relation := "actively_involved_in",
              edge_label := "actively_involved_in", object := t.node_3_id }]
  else if strFindGt t.node_3_type "cellular_component" then
    [first, { subject := t.node_3_id, relation := "has_part", edge_label := "has_part",
              object := t.node_1_id }]
  else [first]

/-- `get_edge_set` over the row groups (loadVP.py 188–266): the union of the
per-group renderings, deduplicated by the Python set. -/
def get_edge_set (groups : List (List NodeRow)) : List String :=
  ((groups.map (fun g => (get_edge_set_group g).map Edge.render_vp)).join).dedup

/-- `(member, part_of, family)` (loadUniRef.py 516). -/
def partOfEdge (memberId familyId : String) : Edge :=
  { subject := memberId, relation := "part_of", edge_label := "part_of", object := familyId }

/-- `(a, in_taxon, b)` (loadUniRef.py 507/520). -/
def inTaxonEdge (a b : String) : Edge :=
  { subject := a, relation := "in_taxon", edge_label := "in_taxon", object := b }

/-- `(representative, similarity-bin, member)` (loadUniRef.py 525). -/
def similarEdge (rep bin memberId : String) : Edge :=
  { subject := rep, relation := bin, edge_label := "similar_to", object := memberId }

/-- The inner `while node_list[node_idx]['grp'] == cur_group` loop of
`write_edge_data` (loadUniRef.py 486–539), carrying the per-group state
(`gene_family_node_id`, `similarity_bin`, `rep_member_node_id`).  A member
row (any `node_num` other than 0 and 1) reads the next row as its taxon
partner — `node_list[node_idx + 1]` raises `IndexError` (`none`) when the
member row is last; the member's two rows are consumed together
(`node_idx += 2`).  Returns the emitted edges and the unconsumed rows of
the next group. -/
def writeGroupLoop (cur family bin rep : String) :
    List NodeRow → Option (List Edge × List NodeRow)
  | [] => some ([], [])
  | row :: rest =>
    if row.grp = cur then
      if row.node_num = 0 then
        writeGroupLoop cur row.id row.similarity_bin rep rest
      else if row.node_num = 1 then
        (writeGroupLoop cur family bin rep rest).map
          (fun r => (inTaxonEdge family row.id :: r.1, r.2))
      else
        let rep' := if row.node_num = 2 then row.id else rep
        match rest with
        | [] => none
        | next :: rest2 =>
          let es := [partOfEdge row.id family, inTaxonEdge row.id next.id] ++
            (if rep' ≠ row.id then [similarEdge rep' bin row.id] else [])
          (writeGroupLoop cur family bin rep' rest2).map (fun r => (es ++ r.1, r.2))
    else some ([], row :: rest)

/-- One-step unfolding of `writeGroupLoop` on a non-empty list. -/
theorem writeGroupLoop_cons (cur family bin rep : String) (row : NodeRow)
    (rest : List NodeRow) :
    writeGroupLoop cur family bin rep (row :: rest) =
      if row.grp = cur then
        if row.node_num = 0 then
          writeGroupLoop cur row.id row.similarity_bin rep rest
        else if row.node_num = 1 then
          (writeGroupLoop cur family bin rep rest).map
            (fun r => (inTaxonEdge family row.id :: r.1, r.2))
        else
          let rep' := if row.node_num = 2 then row.id else rep
          match rest with
          | [] => none
          | next :: rest2 =>
            let es := [partOfEdge row.id family, inTaxonEdge row.id next.id] ++
              (if rep' ≠ row.id then [similarEdge rep' bin row.id] else [])
            (writeGroupLoop cur family bin rep' rest2).map (fun r => (es ++ r.1, r.2))
      else some ([], row :: rest) := by
  cases rest <;> rfl

theorem writeGroupLoop_rem_length (cur family bin rep : String) (l : List NodeRow) :
    ∀ (es : List Edge) (rem : List NodeRow),
      writeGroupLoop cur family bin rep l = some (es, rem) → rem.length ≤ l.length := by
  induction family, bin, rep, l using writeGroupLoop.induct cur with
  | case1 family bin rep =>
    intro es rem h
    simp only [writeGroupLoop, Option.some.injEq, Prod.mk.injEq] at h
    simp [← h.2]
  | case2 family bin rep row rest2 hg h0 ih =>
    intro es rem h
    rw [writeGroupLoop_cons, if_pos hg, if_pos h0] at h
    have := ih es rem h
    simp only [List.length_cons]
    omega
  | case3 family bin rep row rest2 hg h0 h1 ih =>
    intro es rem h
    rw [writeGroupLoop_cons, if_pos hg, if_neg h0, if_pos h1] at h
    match he : writeGroupLoop cur family bin rep rest2 with
    | none => rw [he] at h; simp at h
    | some (es', rem') =>
      rw [he] at h
      simp only [Option.map_some, Option.map_some', Option.some.injEq, Prod.mk.injEq] at h
      have := ih es' rem' he
      have h2 := h.2
      subst h2
      simp only [List.length_cons]
      omega
  | case4 family bin rep row hg h0 h1 =>
    intro es rem h
    rw [writeGroupLoop_cons, if_pos hg, if_neg h0, if_neg h1] at h
    simp at h
  | case5 family bin rep row hg h0 h1 rep' next rest2 ih =>
    intro es rem h
    rw [writeGroupLoop_cons, if_pos hg, if_neg h0, if_neg h1] at h
    dsimp only at h
    match he : writeGroupLoop cur family bin rep' rest2 with
    | none => rw [he] at h; simp at h
    | some (es', rem') =>
      rw [he] at h
      simp only [Option.map_some, Option.map_some', Option.some.injEq, Prod.mk.injEq] at h
      have := ih es' rem' he
      have h2 := h.2
      subst h2
      simp only [List.length_cons]
      omega
  | case6 family bin rep row rest2 hg =>
    intro es rem h
    rw [writeGroupLoop_cons, if_neg hg] at h
    simp only [Option.some.injEq, Prod.mk.injEq] at h
    simp [← h.2]

/-- When the head row belongs to the current group, the inner loop consumes
at least one row. -/
theorem writeGroupLoop_rem_lt (cur family bin rep : String) (row : NodeRow)
    (rest : List NodeRow) (es : List Edge) (rem : List NodeRow)
    (hg : row.grp = cur)
    (h : writeGroupLoop cur family bin rep (row :: rest) = some (es, rem)) :
    rem.length < (row :: rest).length := by
  rw [writeGroupLoop_cons, if_pos hg] at h
  by_cases h0 : row.node_num = 0
  · rw [if_pos h0] at h
    have := writeGroupLoop_rem_length cur row.id row.similarity_bin rep rest es rem h
    simp only [List.length_cons]
    omega
  · rw [if_neg h0] at h
    by_cases h1 : row.node_num = 1
    · rw [if_pos h1] at h
      match he : writeGroupLoop cur family bin rep rest with
      | none => rw [he] at h; simp at h
      | some (es', rem') =>
        rw [he] at h
        simp only [Option.map_some, Option.map_some', Option.some.injEq, Prod.mk.injEq] at h
        have := writeGroupLoop_rem_length cur family bin rep rest es' rem' he
        have h2 := h.2
        subst h2
        simp only [List.length_cons]
        omega
    · rw [if_neg h1] at h
      cases rest with
      | nil => simp at h
      | cons next rest2 =>
        dsimp only at h
        match he : writeGroupLoop cur family bin (if row.node_num = 2 then row.id else rep) rest2 with
        | none => rw [he] at h; simp at h
        | some (es', rem') =>
          rw [he] at h
          simp only [Option.map_some, Option.map_some', Option.some.injEq, Prod.mk.injEq] at h
          have := writeGroupLoop_rem_length cur family bin
            (if row.node_num = 2 then row.id else rep) rest2 es' rem' he
          have h2 := h.2
          subst h2
          simp only [List.length_cons]
          omega

/-- `write_edge_data` (loadUniRef.py 450–557): detect group boundaries by
comparing `grp` of consecutive rows and run the inner loop once per group.
`none` is the uncaught `IndexError` of an unpaired member row. -/
def write_edge_data : List NodeRow → Option (List Edge)
  | [] => some []
  | row :: rest =>
    match h : writeGroupLoop row.grp "" "" "" (row :: rest) with
    | none => none
    | some (es, remaining) =>
      match write_edge_data remaining with
      | none => none
      | some more => some (es ++ more)
termination_by l => l.length
decreasing_by
  exact writeGroupLoop_rem_lt _ _ _ _ _ _ _ _ rfl h

/-! ## The batch writer and the parse loop
(`write_out_data`, loadUniRef.py 420–448; `parse_data_file`,
loadUniRef.py 71–133) -/

/-- The node-table tuple after `grp`/`node_num` are dropped
(loadUniRef.py 439). -/
structure NodeTup where
  id : String
  name : String
  category : String
  equivalent_identifiers : String
  deriving DecidableEq, Repr

/-- Worker for `keepFirst`, structurally recursive on a fuel bound that the
wrapper instantiates with the list length. -/
def keepFirstAux {α : Type} [DecidableEq α] : Nat → List α → List α
  | _, [] => []
  | 0, _ :: _ => []
  | fuel + 1, x :: xs => x :: keepFirstAux fuel (xs.filter (fun y => y ≠ x))

/-- `df.drop_duplicates(keep='first')`: remove exact later duplicates,
preserving the first occurrence. -/
def keepFirst {α : Type} [DecidableEq α] (l : List α) : List α := keepFirstAux l.length l

/-- The per-row projection to the written node tuple. -/
def nodeTuples (node_list : List NodeRow) : List NodeTup :=
  node_list.map (fun r =>
    { id := r.id, name := r.name, category := r.category,
      equivalent_identifiers := r.equivalent_identifiers })

/-- `write_out_data` (loadUniRef.py 420–448): first the edges of the batch,
then the batch's node rows with `grp`/`node_num` dropped and exact
duplicates removed (first kept); both are appended to the output tables.
`none` is the propagated `IndexError` of `write_edge_data`. -/
def write_out_data (node_list : List NodeRow) (out_edges : List Edge)
    (out_nodes : List NodeTup) : Option (List Edge × List NodeTup) :=
  match write_edge_data node_list with
  | none => none
  | some es => some (out_edges ++ es, out_nodes ++ keepFirst (nodeTuples node_list))

/-- An uncaught Python exception escaping `parse_data_file`. -/
inductive RunError where
  /-- `OSError` from a negative seek in `get_entry_element`. -/
  | oserror
  /-- `xml.etree.ElementTree.ParseError` from `ETree.fromstring`. -/
  | parse
  /-- An uncaught `KeyError`/`IndexError` in decomposition, normalization or
  edge writing. -/
  | keyError
  deriving DecidableEq, Repr

/-- The outcome of running the parse loop: a normal return, an uncaught
exception, or divergence. -/
inductive RunResult (α : Type) where
  | ok (a : α)
  | exn (e : RunError)
  | diverge
  deriving DecidableEq, Repr

/-- The body of `parse_data_file` (loadUniRef.py 94–133) over the list of
index offsets.  `fromstring` is the external XML parser; state is the
pending node list, the instance normalization cache, and the two output
tables.  An empty locator result is logged and skipped; any error raised
while processing an entry propagates out of the loop. -/
def parse_data_file_loop (store : List Char) (fromstring : String → Except Unit XElem)
    (service : NormService) (taxa : List String) (block_size : Nat) :
    List Int → List NodeRow → Cache → List Edge → List NodeTup →
    RunResult (List Edge × List NodeTup × Cache)
  | [], node_list, cache, edges, nodes =>
    if 0 < node_list.length then
      match write_out_data node_list edges nodes with
      | none => .exn .keyError
      | some (edges', nodes') => .ok (edges', nodes', cache)
    else .ok (edges, nodes, cache)
  | off :: rest, node_list, cache, edges, nodes =>
    match locate_record store off with
    | .seekErr => .exn .oserror
    | .diverge => .diverge
    | .ok s =>
      let step : Except RunError (List NodeRow) :=
        if s ≠ "" then
          match fromstring s with
          | .error _ => .error .parse
          | .ok root =>
            match capture_entry_data root node_list taxa with
            | .error _ => .error .keyError
            | .ok nl => .ok nl
        else .ok node_list
      match step with
      | .error e => .exn e
      | .ok node_list' =>
        if block_size < node_list'.length then
          match normalize_node_data_uniref service cache node_list' with
          | .error _ => .exn .keyError
          | .ok (node_list2, cache') =>
            match write_out_data node_list2 edges nodes with
            | none => .exn .keyError
            | some (edges', nodes') =>
              parse_data_file_loop store fromstring service taxa block_size rest
                [] cache' edges' nodes'
        else
          parse_data_file_loop store fromstring service taxa block_size rest
            node_list' cache edges nodes

/-- `parse_data_file` (loadUniRef.py 71–133): run the loop from an empty
pending list and empty output tables, with the instance cache passed in. -/
def parse_data_file (store : List Char) (fromstring : String → Except Unit XElem)
    (service : NormService) (taxa : List String) (block_size : Nat)
    (offsets : List Int) (cache : Cache) : RunResult (List Edge × List NodeTup × Cache) :=
  parse_data_file_loop store fromstring service taxa block_size offsets [] cache [] []

/-! ## Specification-side helpers and concrete fixtures -/

/-- Specification-side: the lines a correct locator output consists of —
the successive `readline` results through the first closing-tag line,
inclusive, with the same branch order as the accumulation loop. -/
def uptoClose : List String → Option (List String)
  | [] => none
  | l :: ls =>
    if pyStartswith l "  <seq" then (uptoClose ls).map (l :: ·)
    else if pyStartswith l "</entr" then some [l]
    else (uptoClose ls).map (l :: ·)

/-- Concatenation of a list of lines. -/
def joinLines : List String → String
  | [] => ""
  | l :: ls => l ++ joinLines ls

/-- Specification-side: whether an extracted cross-reference property set
qualifies a member — all four fields present and the member taxon in the
target set (loadUniRef.py 388–409). -/
def memberQualifies (taxa : List String) (props : MemberProps) : Bool :=
  match props.ncbi_taxonomy, props.uniprotkb, props.source_organism, props.protein_name with
  | some tax, some _, some _, some _ => taxa.contains tax
  | _, _, _, _ => false

/-- Specification-side: every `dbReference` child of this element is
well-formed (has an `id` attribute and extractable properties) but yields
no qualifying member. -/
def dbRefsYieldNothing (taxa : List String) (c : XElem) : Bool :=
  c.children.all (fun m =>
    m.tag != "dbReference" ||
    ((m.attr "id").isSome &&
      match extractProps m.children {} false with
      | .ok props => !(memberQualifies taxa props)
      | .error _ => false))

/-- Specification-side: the edges one member pair of a cluster group
contributes (loadUniRef.py 510–526). -/
def clusterMemberEdges (family bin rep : String) (p : NodeRow × NodeRow) : List Edge :=
  [partOfEdge p.1.id family, inTaxonEdge p.1.id p.2.id] ++
    (if rep ≠ p.1.id then [similarEdge rep bin p.1.id] else [])

/-- Fixture: a record store whose single entry truly starts at byte 500. -/
def entryAt500Store : List Char :=
  (String.mk (List.replicate 500 '.') ++ "<entry id=\"UniRef100_Q6GZX4\">\n  <x/>\n</entry>\n").toList

/-- Fixture: a record store whose single entry starts at byte 0. -/
def entryAt0Store : List Char :=
  "<entry id=\"UniRef100_Q6GZX4\">\n  <seq>AA</seq>\n</entry>\n".toList

/-- Fixture: a record store with no opening tag at all. -/
def noEntryStore : List Char := "nothing to see here\n".toList

/-- Fixture: a record store whose entry at byte 0 is never closed. -/
def unclosedStore : List Char := "<entry id=\"X\">\nstill open".toList

def wRowTaxon : NodeRow :=
  { grp := "g1", node_num := 2, id := "NCBITaxon:272557", name := "", category := "",
    equivalent_identifiers := "" }

def wNormResult : NormResult :=
  { id := { identifier := "NCBITaxon:272557", label := some "Aeropyrum pernix" },
    type := some ["organism_taxon", "named_thing"],
    equivalent_identifiers := some ["NCBITaxon:272557"] }

def wServiceOk : NormService := fun _ =>
  some (fun k => if k = "NCBITaxon:272557" then some wNormResult else none)

def wServiceFail : NormService := fun _ => none

def wCacheAbsent : Cache := fun k => if k = "NCBITaxon:9" then some none else none

def wRowTaxonNormed : NodeRow :=
  { wRowTaxon with
    name := "Aeropyrum pernix",
    category := "organism_taxon|named_thing",
    equivalent_identifiers := "NCBITaxon:272557",
    id := "NCBITaxon:272557" }

def wRowN : NodeRow :=
  { grp := "g", node_num := 1, id := "NCBITaxon:9", name := "x", category := "",
    equivalent_identifiers := "" }

def tripRow1 : NodeRow :=
  { grp := "gt", node_num := 1, id := "UniProtKB:O73942", name := "apeI", category := "",
    equivalent_identifiers := "" }

def tripRow2 : NodeRow :=
  { grp := "gt", node_num := 2, id := "NCBITaxon:272557", name := "", category := "",
    equivalent_identifiers := "" }

def tripRow3 : NodeRow :=
  { grp := "gt", node_num := 3, id := "GO:0004518", name := "",
    category := "x|molecular_activity|y", equivalent_identifiers := "" }

def dupRow0 : NodeRow :=
  { grp := "gd", node_num := 0, id := "UniRef100:X", name := "", category := "",
    equivalent_identifiers := "", similarity_bin := "UniRef100" }
def dupRow1 : NodeRow :=
  { grp := "gd", node_num := 1, id := "NCBITaxon:1", name := "", category := "",
    equivalent_identifiers := "", similarity_bin := "UniRef100" }
def dupRow2 : NodeRow :=
  { grp := "gd", node_num := 2, id := "UniProtKB:A", name := "", category := "",
    equivalent_identifiers := "", similarity_bin := "UniRef100" }
def dupRow3 : NodeRow :=
  { grp := "gd", node_num := 2, id := "NCBITaxon:2", name := "", category := "",
    equivalent_identifiers := "", similarity_bin := "UniRef100" }
def dupRow4 : NodeRow :=
  { grp := "gd", node_num := 3, id := "UniProtKB:A", name := "", category := "",
    equivalent_identifiers := "", similarity_bin := "UniRef100" }
def dupRow5 : NodeRow :=
  { grp := "gd", node_num := 3, id := "NCBITaxon:3", name := "", category := "",
    equivalent_identifiers := "", similarity_bin := "UniRef100" }

def dupRows : List NodeRow := [dupRow0, dupRow1, dupRow2, dupRow3, dupRow4, dupRow5]

def dupEdges : List Edge :=
  [inTaxonEdge "UniRef100:X" "NCBITaxon:1",
   partOfEdge "UniProtKB:A" "UniRef100:X", inTaxonEdge "UniProtKB:A" "NCBITaxon:2",
   partOfEdge "UniProtKB:A" "UniRef100:X", inTaxonEdge "UniProtKB:A" "NCBITaxon:3"]

def normRow4 : NodeRow :=
  { grp := "gd", node_num := 3, id := "UniProtKB:B", name := "", category := "",
    equivalent_identifiers := "", similarity_bin := "UniRef100" }

def commonTaxonProp : XElem :=
  { tag := "property", attrib := [("type", "common taxon ID"), ("value", "10493")],
    children := [] }

def nonViralMember : XElem :=
  { tag := "member", attrib := [],
    children := [
      { tag := "dbReference", attrib := [("type", "UniProtKB ID"), ("id", "X_Y")],
        children := [
          { tag := "property", attrib := [("type", "NCBI taxonomy"), ("value", "77777")],
            children := [] } ] } ] }

def noMemberEntry : XElem :=
  { tag := "entry", attrib := [("id", "UniRef100_Q6GZX4")],
    children := [commonTaxonProp, nonViralMember] }

def twoEntryStore : List Char :=
  "<entry id=\"UniRef100_A\">\n</entry>\n<entry id=\"UniRef100_B\">\n</entry>\n".toList

def entryAText : String := "<entry id=\"UniRef100_A\">\n</entry>\n"

def entryBText : String := "<entry id=\"UniRef100_B\">\n</entry>\n"

/-- A parser stub that rejects the first entry's markup and accepts any
other text. -/
def fromstringFailA : String → Except Unit XElem := fun s =>
  if s = entryAText then .error () else .ok noMemberEntry

/-! ## Lemmas and claim theorems -/

theorem memberRows_empty (grp simBin : String) (taxa : List String) (k : Nat)
    (props : MemberProps) (h : memberQualifies taxa props = false) :
    memberRows grp simBin taxa k props = ([], k) := by
  unfold memberRows
  split
  · rfl
  · rename_i tax htax
    split
    · rename_i hcont
      split
      · rename_i up so pn hu hso hpn
        exfalso
        unfold memberQualifies at h
        rw [htax, hu, hso, hpn] at h
        dsimp only at h
        rw [hcont] at h
        exact Bool.noConfusion h
      · rfl
    · rfl

theorem processMembers_nothing (grp simBin : String) (taxa : List String) :
    ∀ (ms : List XElem) (tmp : List NodeRow) (k : Nat),
      (∀ m ∈ ms, m.tag ≠ "dbReference" ∨
        ((m.attr "id").isSome ∧ ∃ props, extractProps m.children {} false = .ok props ∧
          memberQualifies taxa props = false)) →
      processMembers grp simBin taxa ms tmp k = .ok (tmp, k) := by
  intro ms
  induction ms with
  | nil => intro tmp k _; rfl
  | cons m rest ih =>
    intro tmp k h
    have hrest := fun q hq => h q (List.mem_cons_of_mem m hq)
    rcases h m (List.mem_cons_self m rest) with htag | ⟨hid, props, hex, hq⟩
    · unfold processMembers
      rw [if_neg htag]
      exact ih tmp k hrest
    · unfold processMembers
      by_cases htag : m.tag = "dbReference"
      · rw [if_pos htag]
        match hidm : m.attr "id" with
        | none => rw [hidm] at hid; simp at hid
        | some mid =>
          dsimp only
          rw [hex]
          dsimp only
          rw [memberRows_empty grp simBin taxa k props hq]
          dsimp only
          simp only [List.append_nil]
          exact ih tmp k hrest
      · rw [if_neg htag]
        exact ih tmp k hrest

theorem dbRefsYieldNothing_spec (taxa : List String) (c : XElem)
    (h : dbRefsYieldNothing taxa c = true) :
    ∀ m ∈ c.children, m.tag ≠ "dbReference" ∨
      ((m.attr "id").isSome ∧ ∃ props, extractProps m.children {} false = .ok props ∧
        memberQualifies taxa props = false) := by
  intro m hm
  unfold dbRefsYieldNothing at h
  have := (List.all_eq_true.mp h) m hm
  by_cases htag : m.tag = "dbReference"
  · right
    rw [htag] at this
    simp only [bne_self_eq_false, Bool.false_or, Bool.and_eq_true] at this
    refine ⟨this.1, ?_⟩
    match hex : extractProps m.children {} false with
    | .error e => rw [hex] at this; simp at this
    | .ok props =>
      rw [hex] at this
      exact ⟨props, rfl, by simpa using this.2⟩
  · left; exact htag

theorem processChild_skip_pre (grp simBin en : String) (taxa : List String)
    (tmp : List NodeRow) (k : Nat) (c : XElem)
    (ht : c.attr "type" ≠ some "common taxon ID") :
    processChild grp simBin en taxa (tmp, k, false) c = .ok (tmp, k, false) := by
  unfold processChild
  match hty : c.attr "type" with
  | none =>
    dsimp only
    rw [if_neg (by simp)]
  | some ty =>
    have hty' : ¬ ty = "common taxon ID" := fun hh => ht (by rw [hty, hh])
    dsimp only
    rw [if_neg hty']
    dsimp only
    rw [if_neg (by simp)]

theorem processChild_skip_post (grp simBin en : String) (taxa : List String)
    (tmp : List NodeRow) (k : Nat) (c : XElem)
    (ht : c.attr "type" ≠ some "common taxon ID")
    (hdb : dbRefsYieldNothing taxa c = true) :
    processChild grp simBin en taxa (tmp, k, true) c = .ok (tmp, k, true) := by
  unfold processChild
  match hty : c.attr "type" with
  | none =>
    dsimp only
    by_cases htag : c.tag = "member" ∨ c.tag = "representativeMember"
    · rw [if_pos ⟨rfl, htag⟩]
      rw [processMembers_nothing grp simBin taxa c.children tmp k
        (dbRefsYieldNothing_spec taxa c hdb)]
    · rw [if_neg (by simp [htag])]
  | some ty =>
    have hty' : ¬ ty = "common taxon ID" := fun hh => ht (by rw [hty, hh])
    dsimp only
    rw [if_neg hty']
    dsimp only
    by_cases htag : c.tag = "member" ∨ c.tag = "representativeMember"
    · rw [if_pos ⟨rfl, htag⟩]
      rw [processMembers_nothing grp simBin taxa c.children tmp k
        (dbRefsYieldNothing_spec taxa c hdb)]
    · rw [if_neg (by simp [htag])]

theorem processChild_common (grp simBin en : String) (taxa : List String)
    (tmp : List NodeRow) (k : Nat) (vc : Bool) (c : XElem) (v : String)
    (ht : c.attr "type" = some "common taxon ID") (hv : c.attr "value" = some v)
    (htag : ¬(c.tag = "member" ∨ c.tag = "representativeMember")) :
    processChild grp simBin en taxa (tmp, k, vc) c = .ok (tmp ++
      [{ grp := grp, node_num := k, id := en, name := en,
         category := "gene_family|named_thing|biological_entity|molecular_entity",
         equivalent_identifiers := en, similarity_bin := simBin },
       { grp := grp, node_num := k + 1, id := "NCBITaxon:" ++ v, name := "NCBITaxon:" ++ v,
         category := "", equivalent_identifiers := "NCBITaxon:" ++ v,
         similarity_bin := simBin }], k + 2, true) := by
  unfold processChild
  rw [ht]
  dsimp only
  rw [if_pos rfl, hv]
  dsimp only
  rw [if_neg (by simp [htag])]

theorem foldlM_processChild_pre (grp simBin en : String) (taxa : List String) :
    ∀ (cs : List XElem) (tmp : List NodeRow) (k : Nat),
      (∀ c ∈ cs, c.attr "type" ≠ some "common taxon ID") →
      List.foldlM (processChild grp simBin en taxa) (tmp, k, false) cs =
        .ok (tmp, k, false) := by
  intro cs
  induction cs with
  | nil => intro tmp k _; rfl
  | cons c rest ih =>
    intro tmp k h
    rw [List.foldlM_cons,
      processChild_skip_pre grp simBin en taxa tmp k c (h c (List.mem_cons_self c rest))]
    show List.foldlM (processChild grp simBin en taxa) (tmp, k, false) rest = _
    exact ih tmp k (fun q hq => h q (List.mem_cons_of_mem c hq))

theorem foldlM_processChild_post (grp simBin en : String) (taxa : List String) :
    ∀ (cs : List XElem) (tmp : List NodeRow) (k : Nat),
      (∀ c ∈ cs, c.attr "type" ≠ some "common taxon ID" ∧ dbRefsYieldNothing taxa c = true) →
      List.foldlM (processChild grp simBin en taxa) (tmp, k, true) cs =
        .ok (tmp, k, true) := by
  intro cs
  induction cs with
  | nil => intro tmp k _; rfl
  | cons c rest ih =>
    intro tmp k h
    rw [List.foldlM_cons,
      processChild_skip_post grp simBin en taxa tmp k c (h c (List.mem_cons_self c rest)).1
        (h c (List.mem_cons_self c rest)).2]
    show List.foldlM (processChild grp simBin en taxa) (tmp, k, true) rest = _
    exact ih tmp k (fun q hq => h q (List.mem_cons_of_mem c hq))

theorem capture_tmp_no_qualifying_members (root : XElem) (taxa : List String)
    (rid grp bin v : String) (pre post : List XElem) (c0 : XElem)
    (hid : root.attr "id" = some rid)
    (hparts : pySplitColon (replaceUnderscoreColon rid) = [bin, grp])
    (hchildren : root.children = pre ++ c0 :: post)
    (hpre : ∀ c ∈ pre, c.attr "type" ≠ some "common taxon ID")
    (hc0t : c0.attr "type" = some "common taxon ID")
    (hc0v : c0.attr "value" = some v)
    (hc0tag : ¬(c0.tag = "member" ∨ c0.tag = "representativeMember"))
    (hpost : ∀ c ∈ post,
      c.attr "type" ≠ some "common taxon ID" ∧ dbRefsYieldNothing taxa c = true) :
    capture_tmp root taxa = .ok
      [{ grp := grp, node_num := 0, id := replaceUnderscoreColon rid,
         name := replaceUnderscoreColon rid,
         category := "gene_family|named_thing|biological_entity|molecular_entity",
         equivalent_identifiers := replaceUnderscoreColon rid, similarity_bin := bin },
       { grp := grp, node_num := 1, id := "NCBITaxon:" ++ v, name := "NCBITaxon:" ++ v,
         category := "", equivalent_identifiers := "NCBITaxon:" ++ v,
         similarity_bin := bin }] := by
  unfold capture_tmp
  rw [hid]
  dsimp only
  rw [hparts]
  simp only [List.getElem?_cons_succ, List.getElem?_cons_zero, List.headD_cons]
  rw [hchildren, List.foldlM_append]
  rw [foldlM_processChild_pre grp bin (replaceUnderscoreColon rid) taxa pre [] 0 hpre]
  simp only [bind, Except.bind]
  rw [List.foldlM_cons,
    processChild_common grp bin (replaceUnderscoreColon rid) taxa [] 0 false c0 v
      hc0t hc0v hc0tag]
  simp only [bind, Except.bind]
  rw [foldlM_processChild_post grp bin (replaceUnderscoreColon rid) taxa post _ 2 hpost]
  simp


theorem writeGroupLoop_members (g family bin rep : String) :
    ∀ (pairs : List (NodeRow × NodeRow)),
      (∀ p ∈ pairs, p.1.grp = g ∧ ¬p.1.node_num = 0 ∧ ¬p.1.node_num = 1 ∧ ¬p.1.node_num = 2) →
      writeGroupLoop g family bin rep (pairs.flatMap fun p => [p.1, p.2]) =
        some (pairs.flatMap (clusterMemberEdges family bin rep), []) := by
  intro pairs
  induction pairs with
  | nil => intro _; rfl
  | cons p ps ih =>
    intro h
    obtain ⟨hg, h0, h1, h2⟩ := h p (List.mem_cons_self p ps)
    simp only [List.flatMap_cons, List.cons_append, List.nil_append]
    rw [writeGroupLoop_cons, if_pos hg, if_neg h0, if_neg h1]
    dsimp only
    rw [if_neg h2]
    rw [ih (fun q hq => h q (List.mem_cons_of_mem p hq))]
    simp [clusterMemberEdges]

theorem writeGroupLoop_cluster_group (g : String) (r0 r1 m0 t0 : NodeRow)
    (pairs : List (NodeRow × NodeRow))
    (h0g : r0.grp = g) (h00 : r0.node_num = 0)
    (h1g : r1.grp = g) (h11 : r1.node_num = 1)
    (hmg : m0.grp = g) (hm2 : m0.node_num = 2)
    (hm : ∀ p ∈ pairs, p.1.grp = g ∧ ¬p.1.node_num = 0 ∧ ¬p.1.node_num = 1 ∧ ¬p.1.node_num = 2) :
    writeGroupLoop g "" "" "" (r0 :: r1 :: m0 :: t0 :: (pairs.flatMap fun p => [p.1, p.2])) =
      some (inTaxonEdge r0.id r1.id ::
        (clusterMemberEdges r0.id r0.similarity_bin m0.id (m0, t0) ++
         pairs.flatMap (clusterMemberEdges r0.id r0.similarity_bin m0.id)), []) := by
  rw [writeGroupLoop_cons, if_pos h0g, if_pos h00]
  rw [writeGroupLoop_cons, if_pos h1g, if_neg (by rw [h11]; decide), if_pos h11]
  rw [writeGroupLoop_cons, if_pos hmg, if_neg (by rw [hm2]; decide),
    if_neg (by rw [hm2]; decide)]
  dsimp only
  rw [if_pos hm2]
  rw [writeGroupLoop_members g r0.id r0.similarity_bin m0.id pairs hm]
  simp [clusterMemberEdges]

theorem write_edge_data_single_group (row : NodeRow) (rest : List NodeRow) (es : List Edge)
    (h : writeGroupLoop row.grp "" "" "" (row :: rest) = some (es, [])) :
    write_edge_data (row :: rest) = some es := by
  rw [write_edge_data, h]
  dsimp only
  rw [show write_edge_data [] = some [] by rw [write_edge_data]]
  simp


theorem rewriteRows_get (elig : NodeRow → Bool) (cache : Cache) :
    ∀ (l l' : List NodeRow), rewriteRows elig cache l = .ok l' →
      ∀ (k : Nat) (a : NodeRow), l[k]? = some a →
        ∃ b, l'[k]? = some b ∧ rewriteRow elig cache a = .ok b := by
  intro l
  induction l with
  | nil => intro l' h k a ha; simp at ha
  | cons x xs ih =>
    intro l' h k a ha
    unfold rewriteRows at h
    match hx : rewriteRow elig cache x with
    | .error e => rw [hx] at h; exact Except.noConfusion h
    | .ok b0 =>
      rw [hx] at h
      match hxs : rewriteRows elig cache xs with
      | .error e => rw [hxs] at h; exact Except.noConfusion h
      | .ok bs =>
        rw [hxs] at h
        have hl : l' = b0 :: bs := by simpa using h.symm
        subst hl
        match k with
        | 0 =>
          simp only [List.getElem?_cons_zero, Option.some.injEq] at ha
          subst ha
          exact ⟨b0, by simp, hx⟩
        | k + 1 =>
          simp only [List.getElem?_cons_succ] at ha ⊢
          exact ih bs hxs k a ha

theorem rewriteRow_found (elig : NodeRow → Bool) (cache : Cache) (row : NodeRow)
    (r : NormResult) (he : elig row = true) (hc : cache row.id = some (some r)) :
    rewriteRow elig cache row = .ok
      { row with
        name := (match r.id.label with | some l => l | none => row.name),
        category := (match r.type with
          | some ts => String.intercalate "|" ts | none => row.category),
        equivalent_identifiers := (match r.equivalent_identifiers with
          | some es => if 0 < es.length then String.intercalate "|" es
                       else row.equivalent_identifiers
          | none => row.equivalent_identifiers),
        id := r.id.identifier } := by
  unfold rewriteRow setName setCategory setEquiv setId
  rw [if_pos he, hc]
  rcases hl : r.id.label with _ | lbl <;>
  rcases ht : r.type with _ | ts <;>
  rcases heq : r.equivalent_identifiers with _ | es <;>
  simp only [bind, Except.bind, hc, hl, ht, heq] <;>
  first
    | rfl
    | (by_cases hlen : 0 < es.length <;>
        simp only [hlen, if_true, if_false, ite_true, ite_false, hc] <;> rfl)

theorem chunksOf_flatten (sp : Nat) : ∀ (l : List String), (chunksOf sp l).flatten = l := by
  have H : ∀ (n : Nat) (l : List String), l.length = n → (chunksOf sp l).flatten = l := by
    intro n
    induction n using Nat.strong_induction_on with
    | _ n ih =>
      intro l hn
      match l with
      | [] => rfl
      | x :: xs =>
        rw [chunksOf_cons]
        simp only [List.flatten_cons]
        rw [ih ((x :: xs).drop (sp + 1)).length
          (by subst hn; simp only [List.drop_succ_cons, List.length_drop, List.length_cons]; omega)
          _ rfl]
        exact List.take_append_drop (sp + 1) (x :: xs)
  intro l
  exact H l.length l rfl

theorem mem_chunksOf_mem (sp : Nat) (l c : List String) (hc : c ∈ chunksOf sp l)
    (x : String) (hx : x ∈ c) : x ∈ l := by
  have h := chunksOf_flatten sp l
  rw [← h]
  exact List.mem_flatten.mpr ⟨c, hc, hx⟩

theorem chunksOf_disjoint (sp : Nat) (l : List String) (hnd : l.Nodup) :
    (chunksOf sp l).Pairwise List.Disjoint := by
  have h : (chunksOf sp l).flatten.Nodup := by rw [chunksOf_flatten sp l]; exact hnd
  exact (List.nodup_flatten.mp h).2

theorem processOneChunk_not_mem (service : NormService) (cache : Cache)
    (chunk : List String) (x : String) (hx : x ∉ chunk) :
    processOneChunk service cache chunk x = cache x := by
  unfold processOneChunk
  have hcont : chunk.contains x = false := by simpa using hx
  match service chunk with
  | some resp =>
    show (if chunk.contains x = true then some (resp x) else cache x) = cache x
    rw [if_neg (by simpa using hx)]
  | none =>
    show (if chunk.contains x = true then some none else cache x) = cache x
    rw [if_neg (by simpa using hx)]

theorem processOneChunk_mem_failed (service : NormService) (cache : Cache)
    (chunk : List String) (x : String) (hx : x ∈ chunk) (hfail : service chunk = none) :
    processOneChunk service cache chunk x = some none := by
  unfold processOneChunk
  rw [hfail]
  have hcont : chunk.contains x = true := by simpa using hx
  show (if chunk.contains x = true then some none else cache x) = some none
  rw [if_pos hcont]

theorem foldl_chunks_not_mem (service : NormService) :
    ∀ (cs : List (List String)) (cache : Cache) (x : String),
      (∀ c ∈ cs, x ∉ c) →
      cs.foldl (processOneChunk service) cache x = cache x := by
  intro cs
  induction cs with
  | nil => intro cache x h; rfl
  | cons c rest ih =>
    intro cache x h
    simp only [List.foldl_cons]
    rw [ih (processOneChunk service cache c) x (fun d hd => h d (List.mem_cons_of_mem c hd))]
    exact processOneChunk_not_mem service cache c x (h c (List.mem_cons_self c rest))

theorem foldl_chunks_failed (service : NormService) :
    ∀ (cs : List (List String)) (cache : Cache) (c : List String) (x : String),
      cs.Pairwise List.Disjoint → c ∈ cs → service c = none → x ∈ c →
      cs.foldl (processOneChunk service) cache x = some none := by
  intro cs
  induction cs with
  | nil => intro cache c x _ hc; simp at hc
  | cons d rest ih =>
    intro cache c x hpw hc hfail hx
    simp only [List.foldl_cons]
    rcases List.mem_cons.mp hc with rfl | hcr
    · have h1 : processOneChunk service cache c x = some none :=
        processOneChunk_mem_failed service cache c x hx hfail
      have hnot : ∀ e ∈ rest, x ∉ e := by
        intro e he hxe
        exact (List.pairwise_cons.mp hpw).1 e he hx hxe
      rw [foldl_chunks_not_mem service rest _ x hnot, h1]
    · exact ih _ c x (List.pairwise_cons.mp hpw).2 hcr hfail hx

theorem selectCandidates_uniref_not_cached (node_list : List NodeRow) (cache : Cache)
    (x : String) (hx : cache x ≠ none) : x ∉ selectCandidates_uniref node_list cache := by
  unfold selectCandidates_uniref
  intro hmem
  rw [List.mem_dedup, List.mem_filter] at hmem
  exact hx (Option.isNone_iff_eq_none.mp hmem.2)

theorem selectCandidates_uniref_nodup (node_list : List NodeRow) (cache : Cache) :
    (selectCandidates_uniref node_list cache).Nodup :=
  List.nodup_dedup _

theorem processChunks_preserves_cached (service : NormService) (cache : Cache)
    (node_list : List NodeRow) (x : String) (hx : cache x ≠ none) :
    processChunks service 999 cache (selectCandidates_uniref node_list cache) x = cache x := by
  unfold processChunks
  apply foldl_chunks_not_mem
  intro c hc hxc
  exact selectCandidates_uniref_not_cached node_list cache x hx
    (mem_chunksOf_mem 999 _ c hc x hxc)

/-- C3: a row whose original id `X` has a non-absent cached result with
canonical id `Y` ends up with `id = Y`, and every rewritten field was
derived from the result cached under `X`; any cache agreeing at `X` yields
the same rewritten row, whatever it holds at `Y`. -/
theorem vp_rewrite_uses_original_id (service : NormService)
    (node_list rows' : List NodeRow) (k : Nat) (row : NodeRow) (r : NormResult)
    (hok : normalize_node_data_vp service node_list = .ok rows')
    (hrow : node_list[k]? = some row) (he : eligVP row = true)
    (hc : processChunks service 9 emptyCache (selectCandidates_vp node_list emptyCache)
            row.id = some (some r)) :
    ∃ row', rows'[k]? = some row' ∧
      row'.id = r.id.identifier ∧
      row' = { row with
        name := (match r.id.label with | some l => l | none => row.name),
        category := (match r.type with
          | some ts => String.intercalate "|" ts | none => row.category),
        equivalent_identifiers := (match r.equivalent_identifiers with
          | some es => if 0 < es.length then String.intercalate "|" es
                       else row.equivalent_identifiers
          | none => row.equivalent_identifiers),
        id := r.id.identifier } ∧
      (∀ cache2 : Cache, cache2 row.id = some (some r) →
        rewriteRow eligVP cache2 row =
          rewriteRow eligVP
            (processChunks service 9 emptyCache (selectCandidates_vp node_list emptyCache))
            row) := by
  unfold normalize_node_data_vp at hok
  obtain ⟨row', hget, hrw⟩ := rewriteRows_get eligVP _ node_list rows' hok k row hrow
  rw [rewriteRow_found eligVP _ row r he hc] at hrw
  refine ⟨row', hget, ?_, ?_, ?_⟩
  · cases hrw'' : hrw
    rfl
  · have := hrw
    simp only [Except.ok.injEq] at this
    exact this.symm
  · intro cache2 hc2
    rw [rewriteRow_found eligVP cache2 row r he hc2,
        rewriteRow_found eligVP _ row r he hc]

theorem vp_rewrite_uses_original_id_witness :
    ∃ row', [wRowTaxonNormed][0]? = some row' ∧ row'.id = "NCBITaxon:272557" ∧
      row'.name = "Aeropyrum pernix" := by
  obtain ⟨row', hget, hid, heq, -⟩ :=
    vp_rewrite_uses_original_id wServiceOk [wRowTaxon] [wRowTaxonNormed] 0 wRowTaxon
      wNormResult (by decide) (by decide) (by decide) (by decide)
  refine ⟨row', hget, by rw [hid]; rfl, ?_⟩
  rw [heq]
  rfl

/-- C9: an identifier already present in the UniRef cache — result or
explicit absent marker alike — is excluded from candidate selection and
therefore from every chunk the service is called with; and a row whose
cached value is the absent marker passes through the rewrite phase
unmodified. -/
theorem uniref_cache_no_requery_absent_untouched (node_list : List NodeRow)
    (cache : Cache) (x : String) (row : NodeRow) (hpresent : cache x ≠ none) :
    (∀ c ∈ chunksOf 999 (selectCandidates_uniref node_list cache), x ∉ c) ∧
    (cache x = some none → eligN row = true → row.id = x →
      rewriteRow eligN cache row = .ok row) := by
  constructor
  · intro c hc hx
    exact selectCandidates_uniref_not_cached node_list cache x hpresent
      (mem_chunksOf_mem 999 _ c hc x hx)
  · intro habs he hid
    unfold rewriteRow
    rw [if_pos he, hid, habs]

theorem uniref_cache_no_requery_absent_untouched_witness :
    (∀ c ∈ chunksOf 999 (selectCandidates_uniref [wRowN] wCacheAbsent), "NCBITaxon:9" ∉ c) ∧
    rewriteRow eligN wCacheAbsent wRowN = .ok wRowN := by
  obtain ⟨h1, h2⟩ :=
    uniref_cache_no_requery_absent_untouched [wRowN] wCacheAbsent "NCBITaxon:9" wRowN
      (by decide)
  exact ⟨h1, h2 (by decide) (by decide) (by decide)⟩

/-- C4: when the service answers a chunk with a non-200 status, every
candidate of that chunk is cached with the explicit absent marker; a key so
marked is excluded from candidate selection of every later call (so it is
never sent to the service again in the run) and the marker survives every
later chunk phase, whatever the later service responses are. -/
theorem uniref_failed_chunk_absent_sticky (service : NormService) (cache0 : Cache)
    (node_list : List NodeRow) (c : List String) (x : String)
    (hc : c ∈ chunksOf 999 (selectCandidates_uniref node_list cache0))
    (hfail : service c = none) (hx : x ∈ c) :
    processChunks service 999 cache0 (selectCandidates_uniref node_list cache0) x
      = some none ∧
    (∀ rows cache1, normalize_node_data_uniref service cache0 node_list = .ok (rows, cache1) →
      cache1 x = some none) ∧
    (∀ (cache1 : Cache), cache1 x = some none →
      ∀ (node_list2 : List NodeRow),
        (∀ c2 ∈ chunksOf 999 (selectCandidates_uniref node_list2 cache1), x ∉ c2) ∧
        (∀ service2 : NormService,
          processChunks service2 999 cache1 (selectCandidates_uniref node_list2 cache1) x
            = some none)) := by
  have habs : processChunks service 999 cache0 (selectCandidates_uniref node_list cache0) x
      = some none := by
    unfold processChunks
    exact foldl_chunks_failed service _ cache0 c x
      (chunksOf_disjoint 999 _ (selectCandidates_uniref_nodup node_list cache0)) hc hfail hx
  refine ⟨habs, ?_, ?_⟩
  · intro rows cache1 hok
    unfold normalize_node_data_uniref at hok
    dsimp only at hok
    match hrw : rewriteRows eligN
        (processChunks service 999 cache0 (selectCandidates_uniref node_list cache0))
        node_list with
    | .error e =>
      rw [hrw] at hok
      exact Except.noConfusion hok
    | .ok rows0 =>
      rw [hrw] at hok
      have h2 : cache1 = processChunks service 999 cache0
          (selectCandidates_uniref node_list cache0) := by
        simp only [Except.ok.injEq, Prod.mk.injEq] at hok
        exact hok.2.symm
      rw [h2]
      exact habs
  · intro cache1 h1 node_list2
    constructor
    · intro c2 hc2 hx2
      exact selectCandidates_uniref_not_cached node_list2 cache1 x (by rw [h1]; simp)
        (mem_chunksOf_mem 999 _ c2 hc2 x hx2)
    · intro service2
      rw [processChunks_preserves_cached service2 cache1 node_list2 x (by rw [h1]; simp)]
      exact h1

theorem uniref_failed_chunk_absent_sticky_witness :
    processChunks wServiceFail 999 emptyCache (selectCandidates_uniref [wRowN] emptyCache)
      "NCBITaxon:9" = some none ∧
    (∀ c2 ∈ chunksOf 999 (selectCandidates_uniref [wRowN] wCacheAbsent), "NCBITaxon:9" ∉ c2) := by
  obtain ⟨h1, h2, h3⟩ :=
    uniref_failed_chunk_absent_sticky wServiceFail emptyCache [wRowN] ["NCBITaxon:9"]
      "NCBITaxon:9" (by decide) rfl (by decide)
  exact ⟨h1, ((h3 wCacheAbsent (by decide)) [wRowN]).1⟩

/-- C6: for a triplet group the in_taxon edge is always produced, and the
second edge follows the first matching category substring in source order —
`molecular_activity` gives (term, enabled_by, gene); otherwise
`biological_process` gives (gene, actively_involved_in, term); otherwise
`cellular_component` gives (term, has_part, gene); with no match only the
in_taxon edge is produced. -/
theorem triplet_edge_directions (g1 g2 g3 : NodeRow)
    (h1 : g1.node_num = 1) (h2 : g2.node_num = 2) (h3 : g3.node_num = 3) :
    (strFindGt g3.category "molecular_activity" = true →
      get_edge_set_group [g1, g2, g3] =
        [inTaxonEdge g1.id g2.id,
         { subject := g3.id, relation := "enabled_by", edge_label := "enabled_by",
           object := g1.id }]) ∧
    (strFindGt g3.category "molecular_activity" = false →
      strFindGt g3.category "biological_process" = true →
      get_edge_set_group [g1, g2, g3] =
        [inTaxonEdge g1.id g2.id,
         { subject := g1.id, relation := "actively_involved_in",
           edge_label := "actively_involved_in", object := g3.id }]) ∧
    (strFindGt g3.category "molecular_activity" = false →
      strFindGt g3.category "biological_process" = false →
      strFindGt g3.category "cellular_component" = true →
      get_edge_set_group [g1, g2, g3] =
        [inTaxonEdge g1.id g2.id,
         { subject := g3.id, relation := "has_part", edge_label := "has_part",
           object := g1.id }]) ∧
    (strFindGt g3.category "molecular_activity" = false →
      strFindGt g3.category "biological_process" = false →
      strFindGt g3.category "cellular_component" = false →
      get_edge_set_group [g1, g2, g3] = [inTaxonEdge g1.id g2.id]) := by
  have hids : tripletIds [g1, g2, g3] =
      { node_1_id := g1.id, node_2_id := g2.id, node_3_id := g3.id,
        node_3_type := g3.category } := by
    unfold tripletIds
    simp only [List.foldl_cons, List.foldl_nil, h1, h2, h3]
    rfl
  refine ⟨?_, ?_, ?_, ?_⟩ <;> intro hma
  · unfold get_edge_set_group
    rw [hids]
    simp only [hma, if_true, ite_true]
    rfl
  · intro hbp
    unfold get_edge_set_group
    rw [hids]
    simp only [hma, hbp, if_true, if_false, ite_true, ite_false]
    rfl
  · intro hbp hcc
    unfold get_edge_set_group
    rw [hids]
    simp only [hma, hbp, hcc, if_true, if_false, ite_true, ite_false]
    rfl
  · intro hbp hcc
    unfold get_edge_set_group
    rw [hids]
    simp only [hma, hbp, hcc, if_false, ite_false]
    rfl

theorem triplet_edge_directions_witness :
    get_edge_set_group [tripRow1, tripRow2, tripRow3] =
      [inTaxonEdge "UniProtKB:O73942" "NCBITaxon:272557",
       { subject := "GO:0004518", relation := "enabled_by", edge_label := "enabled_by",
         object := "UniProtKB:O73942" }] :=
  (triplet_edge_directions tripRow1 tripRow2 tripRow3 rfl rfl rfl).1 (by decide)

/-- C7 counterexample: in the group `dupRows` the row at node_num 3 is a
non-representative member, yet — because its id coincides with the
representative's id and the code compares ids, not positions — the written
edges contain no similarity edge at all. -/
theorem cluster_similarity_claim_cex :
    write_edge_data dupRows = some dupEdges ∧
    dupEdges.countP (fun e => e.edge_label == "similar_to") = 0 ∧
    dupRow4.node_num ≠ 2 ∧ dupRow4.id = dupRow2.id := by
  refine ⟨?_, by decide, by decide, by decide⟩
  have h : writeGroupLoop dupRow0.grp "" "" ""
      (dupRow0 :: [dupRow1, dupRow2, dupRow3, dupRow4, dupRow5]) = some (dupEdges, []) := by
    decide
  exact write_edge_data_single_group dupRow0 _ dupEdges h

/-- C7 (amended): in a cluster group the representative pair (node_num 2)
contributes no similarity edge; a non-representative member contributes
exactly one similarity edge (representative, similarity-bin, member) when
its id differs from the representative's id, and none when the ids
coincide — the source compares ids, not motif positions. -/
theorem cluster_similarity_edges (g : String) (r0 r1 m0 t0 : NodeRow)
    (pairs : List (NodeRow × NodeRow))
    (h0g : r0.grp = g) (h00 : r0.node_num = 0)
    (h1g : r1.grp = g) (h11 : r1.node_num = 1)
    (hmg : m0.grp = g) (hm2 : m0.node_num = 2)
    (hm : ∀ p ∈ pairs, p.1.grp = g ∧ ¬p.1.node_num = 0 ∧ ¬p.1.node_num = 1 ∧ ¬p.1.node_num = 2) :
    write_edge_data (r0 :: r1 :: m0 :: t0 :: (pairs.flatMap fun p => [p.1, p.2])) =
      some (inTaxonEdge r0.id r1.id ::
        (clusterMemberEdges r0.id r0.similarity_bin m0.id (m0, t0) ++
         pairs.flatMap (clusterMemberEdges r0.id r0.similarity_bin m0.id))) ∧
    (∀ e ∈ clusterMemberEdges r0.id r0.similarity_bin m0.id (m0, t0),
       e.edge_label ≠ "similar_to") ∧
    (∀ p ∈ pairs, m0.id ≠ p.1.id →
      (clusterMemberEdges r0.id r0.similarity_bin m0.id p).count
        (similarEdge m0.id r0.similarity_bin p.1.id) = 1) ∧
    (∀ p ∈ pairs, m0.id = p.1.id →
      ∀ e ∈ clusterMemberEdges r0.id r0.similarity_bin m0.id p,
        e.edge_label ≠ "similar_to") := by
  refine ⟨?_, ?_, ?_, ?_⟩
  · have h := writeGroupLoop_cluster_group g r0 r1 m0 t0 pairs h0g h00 h1g h11 hmg hm2 hm
    rw [← h0g] at h
    exact write_edge_data_single_group r0 _ _ h
  · intro e he
    simp only [clusterMemberEdges, ne_eq, not_true_eq_false, ite_false, ite_self,
      List.append_nil, List.mem_cons, List.mem_singleton] at he
    rcases he with rfl | rfl | he
    · simp [partOfEdge]
    · simp [inTaxonEdge]
    · simp at he
  · intro p hp hne
    simp only [clusterMemberEdges, if_pos hne]
    simp [partOfEdge, inTaxonEdge, similarEdge, List.count_cons, Edge.mk.injEq]
  · intro p hp heq
    intro e he
    simp only [clusterMemberEdges, heq, ne_eq, not_true_eq_false, ite_false, ite_self,
      List.append_nil, List.mem_cons, List.mem_singleton] at he
    rcases he with rfl | rfl | he
    · simp [partOfEdge]
    · simp [inTaxonEdge]
    · simp at he

/-- Witness for the amended C7 on a concrete group with one
distinct-id member, which receives exactly one similarity edge. -/
theorem cluster_similarity_edges_witness :
    write_edge_data [dupRow0, dupRow1, dupRow2, dupRow3, normRow4, dupRow5] =
      some (inTaxonEdge dupRow0.id dupRow1.id ::
        (clusterMemberEdges dupRow0.id dupRow0.similarity_bin dupRow2.id (dupRow2, dupRow3) ++
         [(normRow4, dupRow5)].flatMap
           (clusterMemberEdges dupRow0.id dupRow0.similarity_bin dupRow2.id))) ∧
    (clusterMemberEdges dupRow0.id dupRow0.similarity_bin dupRow2.id
        (normRow4, dupRow5)).count
      (similarEdge dupRow2.id dupRow0.similarity_bin normRow4.id) = 1 := by
  obtain ⟨h1, h2, h3, h4⟩ :=
    cluster_similarity_edges "gd" dupRow0 dupRow1 dupRow2 dupRow3 [(normRow4, dupRow5)]
      rfl rfl rfl rfl rfl rfl (by decide)
  exact ⟨h1, h3 (normRow4, dupRow5) (by decide) (by decide)⟩

/-- C8: a record's rows enter the output list iff at least 6 rows (three
node pairs) were produced; a record with a common-taxon annotation but zero
qualifying members yields exactly the 2 base rows and contributes nothing. -/
theorem capture_six_row_gate (root : XElem) (node_list : List NodeRow) (taxa : List String)
    (rid grp bin v : String) (pre post : List XElem) (c0 : XElem)
    (hid : root.attr "id" = some rid)
    (hparts : pySplitColon (replaceUnderscoreColon rid) = [bin, grp])
    (hchildren : root.children = pre ++ c0 :: post)
    (hpre : ∀ c ∈ pre, c.attr "type" ≠ some "common taxon ID")
    (hc0t : c0.attr "type" = some "common taxon ID")
    (hc0v : c0.attr "value" = some v)
    (hc0tag : ¬(c0.tag = "member" ∨ c0.tag = "representativeMember"))
    (hpost : ∀ c ∈ post,
      c.attr "type" ≠ some "common taxon ID" ∧ dbRefsYieldNothing taxa c = true) :
    (∃ tmp, capture_tmp root taxa = .ok tmp ∧ tmp.length = 2) ∧
    capture_entry_data root node_list taxa = .ok node_list ∧
    (∀ (root2 : XElem) (nl2 : List NodeRow) (taxa2 : List String) (tmp2 res : List NodeRow),
      capture_tmp root2 taxa2 = .ok tmp2 →
      capture_entry_data root2 nl2 taxa2 = .ok res →
      (6 ≤ tmp2.length → res = nl2 ++ tmp2) ∧ (tmp2.length < 6 → res = nl2)) := by
  have h := capture_tmp_no_qualifying_members root taxa rid grp bin v pre post c0
    hid hparts hchildren hpre hc0t hc0v hc0tag hpost
  refine ⟨⟨_, h, rfl⟩, ?_, ?_⟩
  · unfold capture_entry_data
    rw [h]
    dsimp only
    rw [if_neg (by simp)]
  · intro root2 nl2 taxa2 tmp2 res h2 hres
    unfold capture_entry_data at hres
    rw [h2] at hres
    dsimp only at hres
    constructor
    · intro hlen
      rw [if_pos hlen] at hres
      exact (Except.ok.inj hres).symm
    · intro hlen
      rw [if_neg (by omega)] at hres
      exact (Except.ok.inj hres).symm

theorem capture_six_row_gate_witness :
    capture_entry_data noMemberEntry [] ["10493"] = .ok [] ∧
    (∃ tmp, capture_tmp noMemberEntry ["10493"] = .ok tmp ∧ tmp.length = 2) := by
  obtain ⟨h1, h2, h3⟩ :=
    capture_six_row_gate noMemberEntry [] ["10493"] "UniRef100_Q6GZX4" "Q6GZX4" "UniRef100"
      "10493" [] [nonViralMember] commonTaxonProp
      rfl (by decide) rfl (by decide) rfl rfl (by decide) (by decide)
  exact ⟨h2, h1⟩

theorem backScanAux_finds (store : List Char) :
    ∀ (fuel : Nat) (t : Nat) (o : Int),
      readAt store t 6 = "<entry" →
      (t : Int) ≤ o → o < t + fuel →
      (∀ q : Nat, t < q → (q : Int) ≤ o → readAt store q 6 ≠ "<entry") →
      backScanAux store fuel o = .ok (some t) := by
  intro fuel
  induction fuel with
  | zero =>
    intro t o ht h1 h2 hno
    exfalso
    omega
  | succ f ih =>
    intro t o ht h1 h2 hno
    have ho0 : (0 : Int) ≤ o := le_trans (by omega) h1
    unfold backScanAux
    rw [if_neg (by omega)]
    by_cases heq : o = (t : Int)
    · have htn : o.toNat = t := by omega
      rw [htn, if_pos ht]
    · have hlt : (t : Int) < o := lt_of_le_of_ne h1 (Ne.symm heq)
      have hqt : t < o.toNat := by omega
      have hqo : (o.toNat : Int) ≤ o := by omega
      rw [if_neg (hno o.toNat hqt hqo)]
      exact ih t (o - 1) ht (by omega) (by omega)
        (fun q hq1 hq2 => hno q hq1 (by omega))

theorem backScanAux_nomatch (store : List Char) :
    ∀ (fuel : Nat) (o : Int),
      (fuel : Int) ≤ o + 1 →
      (∀ q : Nat, o - fuel < q → (q : Int) ≤ o → readAt store q 6 ≠ "<entry") →
      backScanAux store fuel o = .ok none := by
  intro fuel
  induction fuel with
  | zero => intro o _ _; rfl
  | succ f ih =>
    intro o hf hno
    have ho0 : (0 : Int) ≤ o := by omega
    unfold backScanAux
    rw [if_neg (by omega)]
    rw [if_neg (hno o.toNat (by omega) (by omega))]
    exact ih (o - 1) (by omega) (fun q hq1 hq2 => hno q (by omega) (by omega))

theorem backScanAux_negative (store : List Char) :
    ∀ (fuel : Nat) (o : Int),
      (-1 : Int) ≤ o → o + 1 < (fuel : Int) →
      (∀ q : Nat, (q : Int) ≤ o → readAt store q 6 ≠ "<entry") →
      backScanAux store fuel o = .error () := by
  intro fuel
  induction fuel with
  | zero => intro o h1 h2 _; exfalso; omega
  | succ f ih =>
    intro o h1 h2 hno
    unfold backScanAux
    by_cases hneg : o < 0
    · rw [if_pos hneg]
    · rw [if_neg hneg]
      rw [if_neg (hno o.toNat (by omega))]
      exact ih (o - 1) (by omega) (by omega) (fun q hq => hno q (by omega))

theorem accumLoop_some_decomp :
    ∀ (ls : List String) (acc s : String), accumLoop ls acc = some s →
      ∃ pre close rest, ls = pre ++ close :: rest ∧
        pyStartswith close "</entr" = true ∧ pyStartswith close "  <seq" = false ∧
        (∀ l ∈ pre, pyStartswith l "  <seq" = true ∨ pyStartswith l "</entr" = false) ∧
        s = acc ++ joinLines ((pre ++ [close]).filter (fun l => !(pyStartswith l "  <seq"))) := by
  intro ls
  induction ls with
  | nil => intro acc s h; simp [accumLoop] at h
  | cons l ls' ih =>
    intro acc s h
    unfold accumLoop at h
    by_cases hseq : pyStartswith l "  <seq" = true
    · rw [if_pos hseq] at h
      obtain ⟨pre, close, rest, hls, hc1, hc2, hpre, hs⟩ := ih acc s h
      refine ⟨l :: pre, close, rest, by simp [hls], hc1, hc2, ?_, ?_⟩
      · intro m hm
        rcases List.mem_cons.mp hm with rfl | hm'
        · left; exact hseq
        · exact hpre m hm'
      · rw [hs]
        simp only [List.cons_append, List.filter_cons, hseq, Bool.not_true]
        rfl
    · rw [if_neg hseq] at h
      rw [Bool.not_eq_true] at hseq
      by_cases hclose : pyStartswith l "</entr" = true
      · rw [if_pos hclose] at h
        refine ⟨[], l, ls', rfl, hclose, hseq, by simp, ?_⟩
        rw [← Option.some.inj h]
        simp [joinLines, hseq]
      · rw [if_neg hclose] at h
        obtain ⟨pre, close, rest, hls, hc1, hc2, hpre, hs⟩ := ih (acc ++ l) s h
        refine ⟨l :: pre, close, rest, by simp [hls], hc1, hc2, ?_, ?_⟩
        · intro m hm
          rcases List.mem_cons.mp hm with rfl | hm'
          · right; rw [Bool.not_eq_true] at hclose; exact hclose
          · exact hpre m hm'
        · rw [hs]
          have hfilter : List.filter (fun m => !pyStartswith m "  <seq") ((l :: pre) ++ [close]) =
              l :: List.filter (fun m => !pyStartswith m "  <seq") (pre ++ [close]) := by
            simp [hseq]
          rw [hfilter,
            show joinLines (l :: List.filter (fun m => !pyStartswith m "  <seq") (pre ++ [close]))
              = l ++ joinLines (List.filter (fun m => !pyStartswith m "  <seq") (pre ++ [close]))
              from rfl,
            ← String.append_assoc]

theorem accumLoop_none_of_no_close :
    ∀ (ls : List String) (acc : String),
      (∀ l ∈ ls, pyStartswith l "  <seq" = true ∨ pyStartswith l "</entr" = false) →
      accumLoop ls acc = none := by
  intro ls
  induction ls with
  | nil => intro acc _; rfl
  | cons l ls' ih =>
    intro acc h
    unfold accumLoop
    rcases h l (List.mem_cons_self l ls') with hseq | hclose
    · rw [if_pos hseq]
      exact ih acc (fun m hm => h m (List.mem_cons_of_mem l hm))
    · by_cases hseq : pyStartswith l "  <seq" = true
      · rw [if_pos hseq]
        exact ih acc (fun m hm => h m (List.mem_cons_of_mem l hm))
      · rw [if_neg hseq, if_neg (by rw [hclose]; exact Bool.false_ne_true)]
        exact ih (acc ++ l) (fun m hm => h m (List.mem_cons_of_mem l hm))

theorem accumLoop_isSome_of_close :
    ∀ (ls : List String) (acc : String),
      (∃ l ∈ ls, pyStartswith l "  <seq" = false ∧ pyStartswith l "</entr" = true) →
      ∃ s, accumLoop ls acc = some s := by
  intro ls
  induction ls with
  | nil => intro acc h; simp at h
  | cons l ls' ih =>
    intro acc h
    unfold accumLoop
    by_cases hseq : pyStartswith l "  <seq" = true
    · rw [if_pos hseq]
      apply ih
      obtain ⟨m, hm, h1, h2⟩ := h
      rcases List.mem_cons.mp hm with rfl | hm'
      · rw [hseq] at h1; exact absurd h1 (by simp)
      · exact ⟨m, hm', h1, h2⟩
    · rw [if_neg hseq]
      by_cases hclose : pyStartswith l "</entr" = true
      · rw [if_pos hclose]
        exact ⟨acc ++ l, rfl⟩
      · rw [if_neg hclose]
        apply ih
        obtain ⟨m, hm, h1, h2⟩ := h
        rcases List.mem_cons.mp hm with rfl | hm'
        · exact absurd h2 hclose
        · exact ⟨m, hm', h1, h2⟩

theorem accumLoopFuel_eof : ∀ (fuel : Nat) (acc : String),
    accumLoopFuel fuel [] acc = none := by
  intro fuel
  induction fuel with
  | zero => intro acc; rfl
  | succ f ih => intro acc; exact ih acc

theorem accumLoopFuel_none : ∀ (fuel : Nat) (ls : List String) (acc : String),
    accumLoop ls acc = none → accumLoopFuel fuel ls acc = none := by
  intro fuel
  induction fuel with
  | zero => intro ls acc _; rfl
  | succ f ih =>
    intro ls acc h
    match ls with
    | [] => exact accumLoopFuel_eof (f + 1) acc
    | l :: ls' =>
      unfold accumLoop at h
      unfold accumLoopFuel
      by_cases hseq : pyStartswith l "  <seq" = true
      · rw [if_pos hseq] at h ⊢
        exact ih ls' acc h
      · rw [if_neg hseq] at h ⊢
        by_cases hclose : pyStartswith l "</entr" = true
        · rw [if_pos hclose] at h
          exact Option.noConfusion h
        · rw [if_neg hclose] at h ⊢
          exact ih ls' (acc ++ l) h

theorem accumLoopFuel_complete : ∀ (ls : List String) (fuel : Nat) (acc s : String),
    accumLoop ls acc = some s → ls.length < fuel →
    accumLoopFuel fuel ls acc = some s := by
  intro ls
  induction ls with
  | nil => intro fuel acc s h _; simp [accumLoop] at h
  | cons l ls' ih =>
    intro fuel acc s h hf
    match fuel, hf with
    | f + 1, hf =>
      unfold accumLoop at h
      unfold accumLoopFuel
      by_cases hseq : pyStartswith l "  <seq" = true
      · rw [if_pos hseq] at h ⊢
        exact ih f acc s h (by simp at hf; omega)
      · rw [if_neg hseq] at h ⊢
        by_cases hclose : pyStartswith l "</entr" = true
        · rw [if_pos hclose] at h ⊢
          exact h
        · rw [if_neg hclose] at h ⊢
          exact ih f (acc ++ l) s h (by simp at hf; omega)

/-- C5 (amended): when no opening tag lies in the scanned window, the
locator returns the empty string only if the whole 500-position backward
scan stays at non-negative offsets (post-subtraction offset at least 499);
an offset closer to the start of the file makes the scan seek to a negative
position and raise, instead of returning NOT_FOUND. -/
theorem locator_miss_behavior (store : List Char) (p : Nat) :
    (499 ≤ p → (∀ q : Nat, p - 499 ≤ q → q ≤ p → readAt store q 6 ≠ "<entry") →
      get_entry_element store p = .ok "") ∧
    (p < 499 → (∀ q : Nat, q ≤ p → readAt store q 6 ≠ "<entry") →
      get_entry_element store p = .seekErr) := by
  constructor
  · intro hp hno
    unfold get_entry_element
    rw [backScanAux_nomatch store 500 p (by omega)
      (fun q hq1 hq2 => hno q (by omega) (by omega))]
  · intro hp hno
    unfold get_entry_element
    rw [backScanAux_negative store 500 p (by omega) (by omega)
      (fun q hq => hno q (by omega))]

set_option maxRecDepth 10000 in
theorem locator_miss_behavior_witness :
    get_entry_element ([] : List Char) 499 = .ok "" ∧
    get_entry_element ([] : List Char) 0 = .seekErr := by
  constructor
  · exact (locator_miss_behavior [] 499).1 (by omega) (by decide)
  · exact (locator_miss_behavior [] 0).2 (by omega) (by decide)

set_option maxRecDepth 4000 in
/-- C5 counterexample: on a store with no opening tag anywhere, the index
offset 0 (well inside 500 + 150 of the start of the file) makes the locator
raise from a negative seek rather than return the NOT_FOUND empty string. -/
theorem locator_never_throws_cex :
    locate_record noEntryStore 0 = .seekErr ∧
    locate_record noEntryStore 0 ≠ .ok "" := by
  constructor
  · decide
  · decide

theorem drop_prefix_of_readAt (store : List Char) (t : Nat)
    (h : readAt store t 6 = "<entry") :
    ∃ rest0, store.drop t = "<entry".toList ++ rest0 := by
  unfold readAt at h
  have htake : (store.drop t).take 6 = "<entry".toList := List.asString_eq.mp h
  exact ⟨(store.drop t).drop 6, by rw [← htake]; exact (List.take_append_drop 6 _).symm⟩

theorem takeLine_append_nonl : ∀ (pre l : List Char), (∀ c ∈ pre, c ≠ '\n') →
    takeLine (pre ++ l) = (pre ++ (takeLine l).1, (takeLine l).2) := by
  intro pre
  induction pre with
  | nil => intro l _; simp
  | cons c pre' ih =>
    intro l h
    have hc : c ≠ '\n' := h c (List.mem_cons_self c pre')
    simp only [List.cons_append, takeLine, if_neg hc]
    simp [ih l (fun d hd => h d (List.mem_cons_of_mem c hd))]

theorem splitLines_entry_head (store : List Char) (t : Nat)
    (h : readAt store t 6 = "<entry") :
    ∃ (y : String) (rest' : List String),
      splitLines (store.drop t) = ("<entry" ++ y) :: rest' := by
  obtain ⟨rest0, hdrop⟩ := drop_prefix_of_readAt store t h
  have hnl : ∀ c ∈ "<entry".toList, c ≠ '\n' := by decide
  have htl : takeLine ("<entry".toList ++ rest0) =
      ("<entry".toList ++ (takeLine rest0).1, (takeLine rest0).2) :=
    takeLine_append_nonl "<entry".toList rest0 hnl
  rw [hdrop]
  rw [show "<entry".toList ++ rest0 = '<' :: ("entry".toList ++ rest0) from rfl]
  rw [splitLines_cons]
  rw [show ('<' :: ("entry".toList ++ rest0)) = "<entry".toList ++ rest0 from rfl]
  rw [htl]
  exact ⟨(takeLine rest0).1.asString, splitLines (takeLine rest0).2, rfl⟩

theorem entry_prefix_not_seq (y : String) :
    pyStartswith ("<entry" ++ y) "  <seq" = false := rfl

/-- C1 (amended): the approximate-offset guarantee holds only at or after
the true start: for a post-subtraction offset `o` with
`true_start ≤ o ≤ true_start + 499` (raw index offsets
`[true_start + 150, true_start + 649]`) and no other opening-tag occurrence
in between, the locator returns text that begins exactly at the record's
opening tag and ends at (inclusive) the first subsequent closing-tag line;
offsets below the true start miss the record (see the counterexample). -/
theorem locator_window (store : List Char) (t o : Nat) (s : String)
    (ht : readAt store t 6 = "<entry")
    (ho1 : t ≤ o) (ho2 : o < t + 500)
    (hno : ∀ q : Nat, t < q → q ≤ o → readAt store q 6 ≠ "<entry")
    (hacc : accumLoop (splitLines (store.drop t)) "" = some s) :
    get_entry_element store o = .ok s ∧
    (∃ tail, s = "<entry" ++ tail) ∧
    (∃ pre close rest, splitLines (store.drop t) = pre ++ close :: rest ∧
      pyStartswith close "</entr" = true ∧
      (∀ l ∈ pre, pyStartswith l "  <seq" = true ∨ pyStartswith l "</entr" = false) ∧
      s = joinLines ((pre ++ [close]).filter (fun l => !(pyStartswith l "  <seq")))) := by
  have hscan : backScanAux store 500 (o : Int) = .ok (some t) :=
    backScanAux_finds store 500 t o ht (by exact_mod_cast ho1) (by exact_mod_cast ho2)
      (fun q hq1 hq2 => hno q hq1 (by exact_mod_cast hq2))
  obtain ⟨pre, close, rest, hls, hc1, hc2, hpre, hs⟩ := accumLoop_some_decomp _ "" s hacc
  have hsjoin : s = joinLines ((pre ++ [close]).filter (fun l => !(pyStartswith l "  <seq"))) := by
    rw [hs]
    simp
  refine ⟨?_, ?_, pre, close, rest, hls, hc1, hpre, hsjoin⟩
  · unfold get_entry_element
    rw [hscan]
    dsimp only
    rw [hacc]
  · obtain ⟨y, rest', hsplit⟩ := splitLines_entry_head store t ht
    rw [hsplit] at hls
    cases pre with
    | nil =>
      simp only [List.nil_append] at hls
      have hclose_eq : close = "<entry" ++ y := (List.cons.inj hls).1.symm
      refine ⟨y, ?_⟩
      rw [hsjoin, hclose_eq]
      simp [entry_prefix_not_seq, joinLines]
    | cons p pre' =>
      have hp_eq : p = "<entry" ++ y := (List.cons.inj hls).1.symm
      refine ⟨y ++ joinLines ((pre' ++ [close]).filter (fun l => !(pyStartswith l "  <seq"))), ?_⟩
      rw [hsjoin, hp_eq]
      simp only [List.cons_append, List.filter_cons, entry_prefix_not_seq, Bool.not_false,
        if_pos rfl]
      show ("<entry" ++ y) ++ joinLines _ = _
      rw [String.append_assoc]

set_option maxRecDepth 8000 in
theorem locator_window_witness :
    get_entry_element entryAt0Store 3 =
      .ok "<entry id=\"UniRef100_Q6GZX4\">\n</entry>\n" ∧
    (∃ tail, "<entry id=\"UniRef100_Q6GZX4\">\n</entry>\n" = "<entry" ++ tail) := by
  obtain ⟨h1, h2, h3⟩ :=
    locator_window entryAt0Store 0 3 "<entry id=\"UniRef100_Q6GZX4\">\n</entry>\n"
      (by decide) (by omega) (by omega)
      (by intro q h1 h2; interval_cases q <;> decide) (by decide)
  exact ⟨h1, h2⟩

set_option maxRecDepth 40000 in
set_option maxHeartbeats 1000000 in
/-- C1 counterexample: the entry of `entryAt500Store` truly starts at byte
500, so the offset 499 lies inside the claimed window
`[true_start - 500, true_start + K]`; the locator nevertheless scans only
backward, misses the tag and returns the empty string, which does not begin
with the opening tag. -/
theorem locator_window_cex :
    readAt entryAt500Store 500 6 = "<entry" ∧
    get_entry_element entryAt500Store 499 = .ok "" ∧
    pyStartswith "" "<entry" = false := by
  refine ⟨by decide, by decide, by decide⟩

/-- C10: once the backward scan has found an opening tag, the forward
accumulation terminates — uniformly over all sufficient fuel — exactly when
some following `readline` result opens the closing tag; if the store ends
first, every finite amount of fuel leaves the `while True` loop still
running (the function never returns) and the overall result is divergence. -/
theorem locator_forward_termination (store : List Char) (idx : Int) (p : Nat)
    (hscan : backScanAux store 500 idx = .ok (some p)) :
    ((∃ l ∈ splitLines (store.drop p), pyStartswith l "  <seq" = false ∧
        pyStartswith l "</entr" = true) →
      ∃ s, get_entry_element store idx = .ok s ∧
        ∀ fuel, (splitLines (store.drop p)).length < fuel →
          accumLoopFuel fuel (splitLines (store.drop p)) "" = some s) ∧
    ((∀ l ∈ splitLines (store.drop p), pyStartswith l "  <seq" = true ∨
        pyStartswith l "</entr" = false) →
      get_entry_element store idx = .diverge ∧
      ∀ fuel, accumLoopFuel fuel (splitLines (store.drop p)) "" = none) := by
  constructor
  · intro hclose
    obtain ⟨s, hsome⟩ := accumLoop_isSome_of_close (splitLines (store.drop p)) "" hclose
    refine ⟨s, ?_, fun fuel hf => accumLoopFuel_complete _ fuel "" s hsome hf⟩
    unfold get_entry_element
    rw [hscan]
    dsimp only
    rw [hsome]
  · intro hnoclose
    have hnone := accumLoop_none_of_no_close (splitLines (store.drop p)) "" hnoclose
    constructor
    · unfold get_entry_element
      rw [hscan]
      dsimp only
      rw [hnone]
    · intro fuel
      exact accumLoopFuel_none fuel _ "" hnone

set_option maxRecDepth 8000 in
theorem locator_forward_termination_witness :
    (∃ s, get_entry_element entryAt0Store 0 = .ok s ∧
      accumLoopFuel 5 (splitLines (entryAt0Store.drop 0)) "" = some s) ∧
    get_entry_element unclosedStore 0 = .diverge ∧
    accumLoopFuel 7 (splitLines (unclosedStore.drop 0)) "" = none := by
  refine ⟨?_, ?_, ?_⟩
  · obtain ⟨s, h1, h2⟩ :=
      (locator_forward_termination entryAt0Store 0 0 (by decide)).1 (by decide)
    exact ⟨s, h1, h2 5 (by decide)⟩
  · exact ((locator_forward_termination unclosedStore 0 0 (by decide)).2 (by decide)).1
  · exact ((locator_forward_termination unclosedStore 0 0 (by decide)).2 (by decide)).2 7

/-- C2 (amended): a record whose markup fails to parse raises an uncaught
exception out of `capture_entry_data`; `parse_data_file` has no handler in
its per-record loop, so the whole run aborts with the parse error rather
than proceeding to the next index entry. -/
theorem malformed_record_aborts_run (store : List Char)
    (fromstring : String → Except Unit XElem) (service : NormService)
    (taxa : List String) (block_size : Nat) (off : Int) (rest : List Int)
    (node_list : List NodeRow) (cache : Cache) (edges : List Edge) (nodes : List NodeTup)
    (s : String) (hloc : locate_record store off = .ok s) (hne : s ≠ "")
    (hparse : fromstring s = .error ()) :
    parse_data_file_loop store fromstring service taxa block_size (off :: rest)
      node_list cache edges nodes = .exn .parse := by
  unfold parse_data_file_loop
  rw [hloc]
  dsimp only
  rw [if_pos hne, hparse]

set_option maxRecDepth 8000 in
theorem malformed_record_aborts_run_witness :
    parse_data_file twoEntryStore fromstringFailA wServiceFail [] 1000 [150, 184]
      emptyCache = .exn .parse := by
  exact malformed_record_aborts_run twoEntryStore fromstringFailA wServiceFail [] 1000
    150 [184] [] emptyCache [] [] entryAText (by decide) (by decide) (by rfl)

set_option maxRecDepth 8000 in
/-- C2 counterexample: with a two-record store whose first record fails to
parse (and whose second would parse fine), the run ends in an uncaught
parse error — it does not proceed to the next index entry and produces no
output tables. -/
theorem malformed_record_not_skipped_cex :
    parse_data_file twoEntryStore fromstringFailA wServiceFail [] 1000 [150, 184]
      emptyCache = .exn .parse ∧
    fromstringFailA entryBText = .ok noMemberEntry ∧
    locate_record twoEntryStore 184 = .ok entryBText ∧
    (∀ out, parse_data_file twoEntryStore fromstringFailA wServiceFail [] 1000 [150, 184]
      emptyCache ≠ .ok out) := by
  refine ⟨by rfl, by rfl, by decide, ?_⟩
  intro out h
  rw [show parse_data_file twoEntryStore fromstringFailA wServiceFail [] 1000 [150, 184]
      emptyCache = .exn .parse by rfl] at h
  exact RunResult.noConfusion h
